import Mathlib

/-!
Verification of the review-session orchestration and finding-reconciliation
engine of a pull-request review service, as a shallow embedding in Lean.

The embedding follows the TypeScript sources:
* `reconciler.ts` — `reconcileFindings`, `generateHash`,
  `hasBlockingIssuesRemaining`, `shouldDismissPreviousReview`;
* `types/review.ts` — the `Finding` data model, `determineReviewAction`;
* `comment-builder.ts` — `buildFindingComment` and its helpers;
* `cli-runner.ts` — `parseReviewOutput` (the JSON-extraction regex);
* `github-client.ts` — the `ExistingComment` marker extraction, `setLabels`;
* the reviewer session (`runReview` / `performReview`) as a trace-producing
  state machine over an environment that fixes the outcome of every remote
  call;
* the webhook dispatcher — `shouldTriggerReview`, `verifySignature`.

Machine integers are modelled as `Int`/`Nat` with explicit reduction to
32-bit two's complement where the JavaScript code relies on it; strings are
modelled as Lean `String`/`List Char` (the sources only rely on the ASCII
fragment of JavaScript string semantics in the places proved about).
-/

/-- The two brace characters, named so they can be used in character-level
definitions. -/
def lbrace : Char := Char.ofNat 123

/-- Closing brace character. -/
def rbrace : Char := Char.ofNat 125

/- ### Data model (types/review.ts, github-client.ts) -/

/-- Severity enum from `SeveritySchema`. -/
inductive Severity where
  | critical
  | high
  | medium
  | low
deriving DecidableEq

/-- Category enum from `CategorySchema`. -/
inductive Category where
  | security
  | performance
  | logic
  | errorHandling
  | typeSafety
  | maintainability
deriving DecidableEq

/-- Confidence enum from `ConfidenceSchema`. -/
inductive Confidence where
  | high
  | medium
  | low
deriving DecidableEq

/-- One reported issue, from `FindingSchema`. -/
structure Finding where
  severity : Severity
  category : Category
  confidence : Confidence
  file : String
  line : Nat
  endLine : Option Nat
  title : String
  description : String
  suggestion : Option String
  severityReason : String
  references : List String
  hash : String
deriving DecidableEq

/-- Review status enum from `ReviewStatusSchema`. -/
inductive ReviewStatus where
  | completed
  | skipped
  | failed
deriving DecidableEq

/-- Metadata block of an engine result, from `ReviewMetadataSchema`. -/
structure ReviewMetadata where
  headCommit : String
  filesReviewed : Nat
  skippedFiles : List String
  reviewDurationMs : Nat
deriving DecidableEq

/-- Engine result, from `ReviewResultSchema`. -/
structure ReviewResult where
  status : ReviewStatus
  summary : String
  findings : List Finding
  metadata : ReviewMetadata
  error : Option String
deriving DecidableEq

/-- The review action submitted to the platform (`ReviewAction` union type). -/
inductive ReviewAction where
  | requestChanges
  | comment
  | approve
deriving DecidableEq

/-- A previously posted bot review comment as read back from the platform
(`ExistingComment` in github-client.ts); `hash` is the marker-extracted
hash, `none` when the marker held no string hash. -/
structure ExistingComment where
  id : Nat
  body : String
  path : String
  line : Nat
  hash : Option String
deriving DecidableEq

/-- `determineReviewAction` from types/review.ts: any critical finding forces
request-changes, otherwise any high finding forces comment, otherwise
approve. -/
def determineReviewAction (findings : List Finding) : ReviewAction :=
  let hasCritical := findings.any (fun f => f.severity == Severity.critical)
  let hasHigh := findings.any (fun f => f.severity == Severity.high)
  if hasCritical then ReviewAction.requestChanges
  else if hasHigh then ReviewAction.comment
  else ReviewAction.approve

/- ### Finding reconciliation (reconciler.ts) -/

/-- Result record of `reconcileFindings`. -/
structure ReconciliationResult where
  newFindings : List Finding
  fixedCommentIds : List Nat
  persistingCommentIds : List Nat
deriving DecidableEq

/-- The classification loop of `reconcileFindings`: walk the existing
comments in order, skip those without a hash, and push each remaining id
onto the persisting list when its hash is among the current findings'
hashes, onto the fixed list otherwise. Returns (fixed, persisting). -/
def reconcileLoop (newHashes : List String) : List ExistingComment → List Nat × List Nat
  | [] => ([], [])
  | c :: rest =>
    let p := reconcileLoop newHashes rest
    match c.hash with
    | none => p
    | some h =>
      if newHashes.contains h then (p.1, c.id :: p.2) else (c.id :: p.1, p.2)

/-- `reconcileFindings` from reconciler.ts. The JavaScript `Set`s are
modelled as lists used only through membership. -/
def reconcileFindings (newFindings : List Finding) (existingComments : List ExistingComment) :
    ReconciliationResult :=
  let existingHashes := existingComments.filterMap (fun c => c.hash)
  let newHashes := newFindings.map (fun f => f.hash)
  let newFindingsToPost := newFindings.filter (fun f => !(existingHashes.contains f.hash))
  let ids := reconcileLoop newHashes existingComments
  { newFindings := newFindingsToPost
    fixedCommentIds := ids.1
    persistingCommentIds := ids.2 }

/-- `hasBlockingIssuesRemaining` from reconciler.ts. -/
def hasBlockingIssuesRemaining (newFindings : List Finding)
    (existingComments : List ExistingComment) : Bool :=
  let reconciliation := reconcileFindings newFindings existingComments
  let blockingFindings := reconciliation.newFindings.filter
    (fun f => f.severity == Severity.critical)
  blockingFindings.length > 0

/-- `shouldDismissPreviousReview` from reconciler.ts. -/
def shouldDismissPreviousReview (newFindings : List Finding) : Bool :=
  let hasCritical := newFindings.any (fun f => f.severity == Severity.critical)
  !hasCritical

/- ### Hash derivation (`generateHash` in reconciler.ts) -/

/-- ASCII lowercase letter or digit, the character class kept by the
`[^a-z0-9]` strip in `generateHash`. -/
def isAsciiLowerAlnum (c : Char) : Bool :=
  ('a' ≤ c && c ≤ 'z') || ('0' ≤ c && c ≤ '9')

/-- `title.toLowerCase().replace(/[^a-z0-9]/g, '')`: lowercase every
character (`Char.toLower` is the ASCII fragment of the JavaScript
case-fold) and drop everything outside `[a-z0-9]`. -/
def normalizeTitle (title : String) : String :=
  String.mk ((title.data.map Char.toLower).filter isAsciiLowerAlnum)

/-- The line-range component: the JavaScript conditional
`endLine ? line + "-" + endLine : line` tests *truthiness*, so an
`endLine` of `0` (falsy) produces the single-line form. -/
def lineRangeText (line : Nat) (endLine : Option Nat) : String :=
  match endLine with
  | some e => if e != 0 then toString line ++ "-" ++ toString e else toString line
  | none => toString line

/-- Reduction to 32-bit two's complement, the effect of JavaScript's
`hash & hash` (ToInt32). -/
def toInt32 (n : Int) : Int :=
  let m := n % 4294967296
  if m < 2147483648 then m else m - 4294967296

/-- One iteration of the hash loop:
`hash = ((hash << 5) - hash) + charCode; hash = hash & hash`.
The shift is a 32-bit shift (`toInt32 (h * 32)`), the subtraction and
addition are exact, and the `&` reduces back to 32 bits. -/
def hashStep (h : Int) (c : Char) : Int :=
  toInt32 (toInt32 (h * 32) - h + (c.toNat : Int))

/-- The accumulated hash of a string, starting from 0 (character codes are
code points; the strings hashed by the service are ASCII, where this agrees
with JavaScript's UTF-16 code units). -/
def hashString (s : String) : Int :=
  s.data.foldl hashStep 0

/-- Minimal-width lowercase base-16 digits of a natural number, the
semantics of JavaScript `Number.prototype.toString(16)` on naturals. The
fuel only serves structural termination; `natToHexDigits` supplies more
fuel than any number's digit count. -/
def natToHexCore (fuel n : Nat) : List Char :=
  match fuel with
  | 0 => []
  | fuel + 1 =>
    if n < 16 then [Nat.digitChar n]
    else natToHexCore fuel (n / 16) ++ [Nat.digitChar (n % 16)]

/-- `n.toString(16)` as a digit list. -/
def natToHexDigits (n : Nat) : List Char := natToHexCore (n + 1) n

/-- `padStart(8, '0')`. -/
def padStart8 (s : String) : String :=
  if s.length < 8 then String.mk (List.replicate (8 - s.length) '0') ++ s else s

/-- `Math.abs(hash).toString(16).padStart(8, '0')` applied to the loop
result of an input string. -/
def digestHex (input : String) : String :=
  padStart8 (String.mk (natToHexDigits (hashString input).natAbs))

/-- `generateHash` from reconciler.ts. -/
def generateHash (file : String) (line : Nat) (endLine : Option Nat) (title : String) : String :=
  digestHex (file ++ ":" ++ lineRangeText line endLine ++ ":" ++ normalizeTitle title)

/-- The hash of a finding keyed on its location and title, the way the
service derives finding identity. -/
def findingLocationHash (f : Finding) : String :=
  generateHash f.file f.line f.endLine f.title

/- ### Comment builder (comment-builder.ts) -/

/-- `word.charAt(0).toUpperCase() + word.slice(1)` (ASCII fragment). -/
def capitalizeAscii (s : String) : String :=
  match s.data with
  | [] => ""
  | c :: cs => String.mk (c.toUpper :: cs)

/-- The string form of a severity (the enum values of `SeveritySchema`). -/
def severityText : Severity → String
  | Severity.critical => "critical"
  | Severity.high => "high"
  | Severity.medium => "medium"
  | Severity.low => "low"

/-- `SEVERITY_EMOJI` from types/review.ts. -/
def severityEmoji : Severity → String
  | Severity.critical => "🔴"
  | Severity.high => "🟠"
  | Severity.medium => "🟡"
  | Severity.low => "🔵"

/-- The string form of a category (the enum values of `CategorySchema`). -/
def categoryText : Category → String
  | Category.security => "security"
  | Category.performance => "performance"
  | Category.logic => "logic"
  | Category.errorHandling => "error-handling"
  | Category.typeSafety => "type-safety"
  | Category.maintainability => "maintainability"

/-- The string form of a confidence (the enum values of `ConfidenceSchema`). -/
def confidenceText : Confidence → String
  | Confidence.high => "high"
  | Confidence.medium => "medium"
  | Confidence.low => "low"

/-- Split a character list at each '-' (the `category.split('-')` of
`formatCategory`); `acc` holds the reversed current word. -/
def splitOnDashAux : List Char → List Char → List (List Char)
  | [], acc => [acc.reverse]
  | c :: rest, acc =>
    if c == '-' then acc.reverse :: splitOnDashAux rest []
    else splitOnDashAux rest (c :: acc)

/-- `category.split('-')` as a string operation. -/
def splitOnDash (s : String) : List String :=
  (splitOnDashAux s.data []).map String.mk

/-- `formatCategory`: split on '-', capitalize each word, join with spaces. -/
def formatCategory (category : String) : String :=
  String.intercalate " " ((splitOnDash category).map capitalizeAscii)

/-- `formatConfidence`: capitalize. -/
def formatConfidence (confidence : String) : String :=
  capitalizeAscii confidence

/-- `headCommit.substring(0, 7)`. -/
def shortCommit (headCommit : String) : String :=
  String.mk (headCommit.data.take 7)

/-- Reference display: URLs longer than 60 characters are truncated to 57
plus an ellipsis. -/
def displayRefUrl (ref : String) : String :=
  if ref.length > 60 then String.mk (ref.data.take 57) ++ "..." else ref

/-- One reference line `- [displayUrl](ref)`. -/
def refLine (ref : String) : String :=
  "- [" ++ displayRefUrl ref ++ "](" ++ ref ++ ")"

/-- The header line of a finding comment. -/
def headerLine (f : Finding) : String :=
  severityEmoji f.severity ++ " **" ++ capitalizeAscii (severityText f.severity)
    ++ "** · " ++ formatCategory (categoryText f.category)

/-- The metadata marker line `<!-- ai-review: {"hash":"..."} -->` embedding
the finding's hash. -/
def markerLine (f : Finding) : String :=
  "<!-- ai-review: \x7b\"hash\":\"" ++ f.hash ++ "\"\x7d -->"

/-- The footer line `*Claude PR Reviewer • <short sha>*`. -/
def footerLine (headCommit : String) : String :=
  "*Claude PR Reviewer • " ++ shortCommit headCommit ++ "*"

/-- The lines of a finding comment before the marker line, in the order
`buildFindingComment` pushes them. The optional `references` array of the
schema is modelled as a list, absent meaning `[]`. -/
def findingCommentPreLines (f : Finding) : List String :=
  [headerLine f, "", f.description]
  ++ (match f.suggestion with
      | some s => ["", "```suggestion", s, "```"]
      | none => [])
  ++ ["", "**Confidence:** " ++ formatConfidence (confidenceText f.confidence),
      "**Why this severity:** " ++ f.severityReason]
  ++ (if f.references.length > 0 then
        ["", "**References:**"] ++ f.references.map refLine
      else [])
  ++ ["", "---"]

/-- All lines of a finding comment. -/
def findingCommentLines (f : Finding) (headCommit : String) : List String :=
  findingCommentPreLines f ++ [markerLine f, footerLine headCommit]

/-- `lines.join('\n')`. -/
def joinLines : List String → String
  | [] => ""
  | [l] => l
  | l :: ls => l ++ "\n" ++ joinLines ls

/-- `buildFindingComment` from comment-builder.ts. -/
def buildFindingComment (f : Finding) (headCommit : String) : String :=
  joinLines (findingCommentLines f headCommit)

/-- The part of the comment body strictly before the marker line (used to
state where the marker extractor's first match lands). -/
def bodyBeforeMarker (f : Finding) : String :=
  joinLines (findingCommentPreLines f) ++ "\n"

/-- `buildStillPresentReply` from comment-builder.ts. -/
def buildStillPresentReply (headCommit : String) : String :=
  "⚠️ This issue is still present after the latest changes.\n\n*Claude PR Reviewer • "
    ++ shortCommit headCommit ++ "*"

/-- `sortFindingsBySeverity`: stable sort by severity rank (JavaScript
`Array.prototype.sort` is stable). -/
def severityRank : Severity → Nat
  | Severity.critical => 0
  | Severity.high => 1
  | Severity.medium => 2
  | Severity.low => 3

/-- Stable sort of findings by severity rank, modelling
`sortFindingsBySeverity` from comment-builder.ts (JavaScript
`Array.prototype.sort` is stable; a stable comparator sort over the four
ranks is exactly this bucket concatenation). -/
def sortFindingsBySeverity (findings : List Finding) : List Finding :=
  (findings.filter (fun f => severityRank f.severity == 0))
    ++ (findings.filter (fun f => severityRank f.severity == 1))
    ++ (findings.filter (fun f => severityRank f.severity == 2))
    ++ (findings.filter (fun f => severityRank f.severity == 3))

/- ### Marker extraction (github-client.ts) -/

/-- Whether `pat` is a prefix of `cs`. -/
def beginsWith : List Char → List Char → Bool
  | [], _ => true
  | _ :: _, [] => false
  | p :: ps, c :: cs => p == c && beginsWith ps cs

/-- The literal part of `AI_REVIEW_METADATA_PATTERN` before the capture
group (16 characters). -/
def markerOpenSeq : List Char := "<!-- ai-review: ".data

/-- The literal part after the capture group. -/
def markerCloseSeq : List Char := " -->".data

/-- The marker opening including the brace that starts the capture group. -/
def markerStartSeq : List Char := markerOpenSeq ++ [lbrace]

/-- The lazy scan of the `{.*?}` capture: starting after the opening brace,
take the shortest run of non-newline characters up to a closing brace that
is followed by the literal " -->" (the `.` of the regex never matches a
newline; a closing brace not followed by " -->" is consumed as content).
Returns the capture content including the closing brace, or `none` when no
close exists on this line. -/
def lazyCloseScan : List Char → List Char → Option (List Char)
  | [], _ => none
  | c :: rest, acc =>
    if c == rbrace && beginsWith markerCloseSeq rest then some (List.reverse (c :: acc))
    else if c == '\n' then none
    else lazyCloseScan rest (c :: acc)

/-- Attempt to match `AI_REVIEW_METADATA_PATTERN` at the head of `cs`,
returning the capture group (brace to brace). -/
def matchMarkerAt (cs : List Char) : Option (List Char) :=
  if beginsWith markerOpenSeq cs then
    match cs.drop 16 with
    | [] => none
    | c :: rest =>
      if c == lbrace then
        match lazyCloseScan rest [] with
        | some cap => some (lbrace :: cap)
        | none => none
      else none
  else none

/-- Leftmost match of `AI_REVIEW_METADATA_PATTERN`: try each start
position from the left, returning the first position's capture. -/
def scanForMarker : List Char → Option (List Char)
  | [] => none
  | c :: rest =>
    match matchMarkerAt (c :: rest) with
    | some cap => some cap
    | none => scanForMarker rest

/-- JSON insignificant whitespace. -/
def skipJsonWs : List Char → List Char :=
  List.dropWhile (fun c => c == ' ' || c == '\t' || c == '\n' || c == '\r')

/-- Value of a hexadecimal digit character. -/
def hexVal (c : Char) : Option Nat :=
  if '0' ≤ c && c ≤ '9' then some (c.toNat - 48)
  else if 'a' ≤ c && c ≤ 'f' then some (c.toNat - 87)
  else if 'A' ≤ c && c ≤ 'F' then some (c.toNat - 55)
  else none

/-- Body of a JSON string literal after the opening quote: JSON escape
handling, stopping at the closing quote; returns the decoded string and
the remaining input. -/
def parseJsonStringBody : List Char → List Char → Option (String × List Char)
  | [], _ => none
  | c :: rest, acc =>
    if c == '"' then some (String.mk acc.reverse, rest)
    else if c == '\\' then
      match rest with
      | [] => none
      | e :: rest2 =>
        if e == '"' then parseJsonStringBody rest2 ('"' :: acc)
        else if e == '\\' then parseJsonStringBody rest2 ('\\' :: acc)
        else if e == '/' then parseJsonStringBody rest2 ('/' :: acc)
        else if e == 'n' then parseJsonStringBody rest2 ('\n' :: acc)
        else if e == 't' then parseJsonStringBody rest2 ('\t' :: acc)
        else if e == 'r' then parseJsonStringBody rest2 ('\r' :: acc)
        else if e == 'b' then parseJsonStringBody rest2 (Char.ofNat 8 :: acc)
        else if e == 'f' then parseJsonStringBody rest2 (Char.ofNat 12 :: acc)
        else if e == 'u' then
          match rest2 with
          | h1 :: h2 :: h3 :: h4 :: rest3 =>
            match hexVal h1, hexVal h2, hexVal h3, hexVal h4 with
            | some a, some b, some c3, some d =>
              parseJsonStringBody rest3 (Char.ofNat (((a * 16 + b) * 16 + c3) * 16 + d) :: acc)
            | _, _, _, _ => none
          | _ => none
        else none
    else if c.toNat < 32 then none
    else parseJsonStringBody rest (c :: acc)

/-- Members of a flat JSON object whose values are all strings (the only
object shape the marker producer emits); parses `"key":"value"` pairs up
to and including the closing brace. The fuel is an upper bound on the
number of members. -/
def parseJsonMembers : Nat → List Char → Option (List (String × String) × List Char)
  | 0, _ => none
  | fuel + 1, cs =>
    match skipJsonWs cs with
    | [] => none
    | c :: rest =>
      if c == '"' then
        match parseJsonStringBody rest [] with
        | none => none
        | some (key, rest2) =>
          match skipJsonWs rest2 with
          | [] => none
          | colon :: rest3 =>
            if colon == ':' then
              match skipJsonWs rest3 with
              | [] => none
              | q :: rest4 =>
                if q == '"' then
                  match parseJsonStringBody rest4 [] with
                  | none => none
                  | some (val, rest5) =>
                    match skipJsonWs rest5 with
                    | [] => none
                    | sep :: rest6 =>
                      if sep == ',' then
                        match parseJsonMembers fuel rest6 with
                        | some (kvs, rest7) => some ((key, val) :: kvs, rest7)
                        | none => none
                      else if sep == rbrace then some ([(key, val)], rest6)
                      else none
                else none
            else none
      else none

/-- `JSON.parse` restricted to flat objects with string keys and string
values, the shape of the `ai-review` metadata marker; any other input is a
parse failure. The whole input must be consumed (modulo whitespace). -/
def parseFlatJsonObject (cs : List Char) : Option (List (String × String)) :=
  match skipJsonWs cs with
  | [] => none
  | c :: rest =>
    if c == lbrace then
      match skipJsonWs rest with
      | [] => none
      | d :: rest2 =>
        if d == rbrace then (if (skipJsonWs rest2).isEmpty then some [] else none)
        else
          match parseJsonMembers (rest.length + 1) rest with
          | some (kvs, rest3) => if (skipJsonWs rest3).isEmpty then some kvs else none
          | none => none
    else none

/-- Duplicate JSON keys resolve to the last occurrence, as in JavaScript. -/
def jsonLookupLast (key : String) (kvs : List (String × String)) : Option String :=
  match (kvs.filter (fun kv => kv.1 == key)).getLast? with
  | some kv => some kv.2
  | none => none

/-- The per-comment hash recovery of `getExistingBotComments`: match the
body against `AI_REVIEW_METADATA_PATTERN`, `JSON.parse` the capture group,
and read its `hash` field. All three failure modes of the source (no
marker; unparsable metadata, which skips the comment; a parsed object
without a string hash, which yields `hash: null`) collapse to `none`. -/
def extractMarkerHash (body : String) : Option String :=
  match scanForMarker body.data with
  | none => none
  | some cap =>
    match parseFlatJsonObject cap with
    | none => none
    | some kvs => jsonLookupLast "hash" kvs

/- ### Engine output extraction (cli-runner.ts) -/

/-- First index at which `pat` begins in `cs`. -/
def findSeqIdx (pat : List Char) : List Char → Option Nat
  | [] => if beginsWith pat [] then some 0 else none
  | c :: rest =>
    if beginsWith pat (c :: rest) then some 0
    else
      match findSeqIdx pat rest with
      | some i => some (i + 1)
      | none => none

/-- Last index at which character `ch` occurs in `cs`. -/
def lastCharIdx (ch : Char) : List Char → Option Nat
  | [] => none
  | c :: rest =>
    match lastCharIdx ch rest with
    | some i => some (i + 1)
    | none => if c == ch then some 0 else none

/-- The quoted literal `"status"` of the extraction regex (8 characters). -/
def statusPat : List Char := ("\"status\"").data

/-- The quoted literal `"findings"` of the extraction regex (10 characters). -/
def findingsPat : List Char := ("\"findings\"").data

/-- Leftmost-greedy match of the extraction regex
`/\{[\s\S]*"status"[\s\S]*"findings"[\s\S]*\}/`:
the match starts at the first opening brace (feasibility from a later
brace implies feasibility from an earlier one, so the first brace is the
leftmost feasible start), requires an occurrence of `"status"` after it,
an occurrence of `"findings"` at least 8 characters later, and ends — the
stars being greedy — at the last closing brace of the whole string,
provided that brace lies past the end of the `"findings"` literal. -/
def jsonMatchModel (cs : List Char) : Option (List Char) :=
  match findSeqIdx [lbrace] cs with
  | none => none
  | some p =>
    match findSeqIdx statusPat (cs.drop (p + 1)) with
    | none => none
    | some i0 =>
      match findSeqIdx findingsPat (cs.drop (p + 1 + i0 + 8)) with
      | none => none
      | some j0 =>
        match lastCharIdx rbrace cs with
        | none => none
        | some e =>
          if p + 1 + i0 + 8 + j0 + 10 ≤ e then
            some ((cs.drop p).take (e + 1 - p))
          else none

/-- Result record of the CLI runner (`CliRunnerResult`). -/
structure CliRunnerResult where
  success : Bool
  result : Option ReviewResult
  error : Option String
  rawOutput : Option String
deriving DecidableEq

/-- The error message used when no JSON-looking substring is found. -/
def noJsonFoundMsg : String := "Could not find JSON in Claude output"

/-- `parseReviewOutput` from cli-runner.ts, parameterized by the
`JSON.parse` + `ReviewResultSchema.parse` validation step (an external
library call): extract the first JSON-looking substring; report a
"no JSON" failure when there is none; otherwise validate it, reporting a
distinct parse/validation failure rather than a coerced success. -/
def parseReviewOutput (validate : String → Except String ReviewResult) (output : String) :
    CliRunnerResult :=
  match jsonMatchModel output.data with
  | none => { success := false, result := none, error := some noJsonFoundMsg,
              rawOutput := some output }
  | some m =>
    match validate (String.mk m) with
    | Except.ok r => { success := true, result := some r, error := none,
                       rawOutput := some output }
    | Except.error msg =>
      { success := false, result := none,
        error := some ("Failed to parse review JSON: " ++ msg), rawOutput := some output }

/- ### Review session state machine (reviewer/index.ts) -/

/-- One observable remote-state interaction of a session. -/
inductive Ev where
  | fetchPRInfo
  | setLabels (pending : Bool)
  | cliCheck (available : Bool)
  | getChangedFiles
  | checkNonCode
  | cloneRepo
  | runEngine
  | getExisting
  | resolveThread (id : Nat)
  | createComment (hash : String)
  | dismissStale
  | submitRev (action : ReviewAction) (summary : Bool)
  | postErrorComment
  | removeWorkdir
deriving DecidableEq

/-- A session computation: the trace of interactions it performed together
with its result — `Except.error` models a thrown exception. -/
def Sess (α : Type) : Type := List Ev × Except String α

/-- Return without interacting. -/
def Sess.pure (a : α) : Sess α := ([], Except.ok a)

/-- Sequencing: an exception short-circuits, traces accumulate in order. -/
def Sess.bind : Sess α → (α → Sess β) → Sess β
  | (tr, Except.error e), _ => (tr, Except.error e)
  | (tr, Except.ok a), f => ((tr ++ (f a).1 : List Ev), (f a).2)

instance : Monad Sess where
  pure := Sess.pure
  bind := Sess.bind

/-- A remote call: records its event and takes its result (success or
thrown exception) from the environment. -/
def callRemote (e : Ev) (r : Except String α) : Sess α := ([e], r)

/-- A local, non-throwing step that is still visible in the trace. -/
def emitEv (e : Ev) : Sess Unit := ([e], Except.ok ())

/-- `throw new Error(msg)`. -/
def sessFail (msg : String) : Sess α := ([], Except.error msg)

/-- `try`/`catch`: turn the result into a value, keeping the trace. -/
def sessAttempt (s : Sess α) : Sess (Except String α) := (s.1, Except.ok s.2)

/-- The `try { ... } finally { await rm(workDir, ...) }` of
`performReview`: the workspace removal (a local filesystem operation,
modelled non-throwing) runs on every exit path. -/
def withWorkdirCleanup (s : Sess α) : Sess α := (s.1 ++ [Ev.removeWorkdir], s.2)

/-- A sequential `for ... of` loop of remote calls, one per list element;
an exception aborts the remainder of the loop. -/
def callEach (mk : α → Ev) (res : α → Except String Unit) : List α → Sess Unit
  | [] => Sess.pure ()
  | x :: xs => Sess.bind (callRemote (mk x) (res x)) (fun _ => callEach mk res xs)

/-- Terminal action tag of a `ReviewOutcome`. -/
inductive OutcomeAction where
  | reviewed
  | skipped
  | error
deriving DecidableEq

/-- `ReviewOutcome` from reviewer/index.ts. -/
structure ReviewOutcome where
  success : Bool
  action : Option OutcomeAction
  message : String
  findingsCount : Option Nat
deriving DecidableEq

/-- `ReviewerConfig` (the GitHub credentials are irrelevant to the modelled
behavior and omitted). -/
structure ReviewerConfig where
  maxFilesThreshold : Nat
  retryOnError : Bool

/-- Environment of one work-phase attempt: the outcome of every external
interaction `performReview` may perform, `Except.error` meaning the call
throws. -/
structure AttemptEnv where
  cliAvailable : Bool
  changedFiles : Except String Nat
  nonCode : Except String Bool
  cloneRes : Except String Unit
  engine : CliRunnerResult
  existing : Except String (List ExistingComment)
  resolveRes : Nat → Except String Unit
  createRes : String → Except String Unit
  dismissRes : Except String Unit
  submitRes : Except String Unit

/-- Environment of a whole `runReview` session. The label and error-comment
calls get one result per call site (at most one of the reviewed-label sites
executes in any run). -/
structure SessionEnv where
  fetchPR : Except String Unit
  setPendingRes : Except String Unit
  attempt1 : AttemptEnv
  attempt2 : AttemptEnv
  setReviewedRes : Except String Unit
  setReviewedRetryRes : Except String Unit
  setReviewedFailRes : Except String Unit
  postErrorRes : Except String Unit

/-- The skip reason for an oversized diff. -/
def largeDiffReason (changedFiles maxFiles : Nat) : String :=
  "This PR changes " ++ toString changedFiles ++ " files, which exceeds the threshold of "
    ++ toString maxFiles ++ " files. Please request a manual review."

/-- The skip reason for a non-code diff. -/
def nonCodeReason : String :=
  "This PR contains only non-code changes (documentation, configuration, etc.). Skipping detailed code review."

/-- Wire form of a review action. -/
def reviewActionText : ReviewAction → String
  | ReviewAction.requestChanges => "request_changes"
  | ReviewAction.comment => "comment"
  | ReviewAction.approve => "approve"

/-- `performReview` from reviewer/index.ts as a trace-producing function of
its attempt environment. Every `await` on a remote call is a `callRemote`;
the order of the calls is the order of the source. -/
def performReview (cfg : ReviewerConfig) (env : AttemptEnv) : Sess ReviewOutcome := do
  let avail ← callRemote (Ev.cliCheck env.cliAvailable) (Except.ok env.cliAvailable)
  if avail then
    let changed ← callRemote Ev.getChangedFiles env.changedFiles
    if changed > cfg.maxFilesThreshold then do
      let _ ← callRemote (Ev.submitRev ReviewAction.comment false) env.submitRes
      Sess.pure { success := true, action := some OutcomeAction.skipped,
                  message := largeDiffReason changed cfg.maxFilesThreshold,
                  findingsCount := none }
    else do
      let nonCode ← callRemote Ev.checkNonCode env.nonCode
      if nonCode then do
        let _ ← callRemote (Ev.submitRev ReviewAction.comment false) env.submitRes
        Sess.pure { success := true, action := some OutcomeAction.skipped,
                    message := nonCodeReason, findingsCount := none }
      else
        withWorkdirCleanup (do
          let _ ← callRemote Ev.cloneRepo env.cloneRes
          let _ ← emitEv Ev.runEngine
          match env.engine.success, env.engine.result with
          | true, some result =>
            if result.status == ReviewStatus.skipped then do
              let _ ← callRemote (Ev.submitRev ReviewAction.comment false) env.submitRes
              Sess.pure { success := true, action := some OutcomeAction.skipped,
                          message := result.summary, findingsCount := none }
            else do
              let existing ← callRemote Ev.getExisting env.existing
              let reconciliation := reconcileFindings result.findings existing
              let _ ← callEach Ev.resolveThread env.resolveRes reconciliation.fixedCommentIds
              let _ ← callEach (fun f => Ev.createComment f.hash) (fun f => env.createRes f.hash)
                        (sortFindingsBySeverity reconciliation.newFindings)
              let action := determineReviewAction result.findings
              let _ ← if shouldDismissPreviousReview result.findings then
                        callRemote Ev.dismissStale env.dismissRes
                      else Sess.pure ()
              let _ ← callRemote (Ev.submitRev action true) env.submitRes
              Sess.pure { success := true, action := some OutcomeAction.reviewed,
                          message := "Review complete: " ++ reviewActionText action,
                          findingsCount := some result.findings.length }
          | _, _ => sessFail (env.engine.error.getD "Review failed with no output"))
  else sessFail "Claude CLI is not available"

/-- `runReview` from reviewer/index.ts: fetch PR metadata (failure here is
terminal without retry and without label work), flip the label to pending,
run the work phase; on a thrown work-phase error retry the whole work
phase once when configured, and on a repeated failure post an error
comment and return an error outcome — every path after a successful fetch
that produces an outcome passes through a reviewed-label flip. -/
def runReview (cfg : ReviewerConfig) (env : SessionEnv) : Sess ReviewOutcome := do
  let prFetch ← sessAttempt (callRemote Ev.fetchPRInfo env.fetchPR)
  match prFetch with
  | Except.error msg =>
    Sess.pure { success := false, action := some OutcomeAction.error,
                message := "Failed to get PR info: " ++ msg, findingsCount := none }
  | Except.ok _ => do
    let _ ← callRemote (Ev.setLabels true) env.setPendingRes
    let firstTry ← sessAttempt (do
      let outcome ← performReview cfg env.attempt1
      let _ ← callRemote (Ev.setLabels false) env.setReviewedRes
      Sess.pure outcome)
    match firstTry with
    | Except.ok outcome => Sess.pure outcome
    | Except.error msg =>
      if cfg.retryOnError then do
        let secondTry ← sessAttempt (do
          let outcome ← performReview cfg env.attempt2
          let _ ← callRemote (Ev.setLabels false) env.setReviewedRetryRes
          Sess.pure outcome)
        match secondTry with
        | Except.ok outcome => Sess.pure outcome
        | Except.error retryMsg => do
          let _ ← callRemote Ev.postErrorComment env.postErrorRes
          let _ ← callRemote (Ev.setLabels false) env.setReviewedFailRes
          Sess.pure { success := false, action := some OutcomeAction.error,
                      message := retryMsg, findingsCount := none }
      else do
        let _ ← callRemote Ev.postErrorComment env.postErrorRes
        let _ ← callRemote (Ev.setLabels false) env.setReviewedFailRes
        Sess.pure { success := false, action := some OutcomeAction.error,
                    message := msg, findingsCount := none }

/- ### Label reconciliation (`setLabels` in github-client.ts) -/

/-- The pending label constant. -/
def labelPending : String := "ai-review-pending"

/-- The reviewed label constant. -/
def labelReviewed : String := "ai-reviewed"

/-- The label set produced by one `setLabels` call given the labels
currently on the issue: remove the opposite-state label when present, then
add the target label when it was not already present. -/
def setLabelsResult (pending : Bool) (current : List String) : List String :=
  let labelsToRemove := if pending then [labelReviewed] else [labelPending]
  let labelToAdd := if pending then labelPending else labelReviewed
  let afterRemove := current.filter (fun l => !(labelsToRemove.contains l))
  if current.contains labelToAdd then afterRemove else afterRemove ++ [labelToAdd]

/- ### Webhook dispatcher (pull-request variant) -/

/-- The `requested_reviewer` field of a pull-request webhook payload. -/
structure RequestedReviewer where
  login : String
  type : String
deriving DecidableEq

/-- The `pull_request` field of the payload. -/
structure PullRequestData where
  state : String
  draft : Bool
deriving DecidableEq

/-- A pull-request webhook payload (the fields the trigger filter reads). -/
structure PullRequestPayload where
  action : String
  number : Nat
  pull_request : PullRequestData
  requested_reviewer : Option RequestedReviewer
deriving DecidableEq

/-- `shouldTriggerReview` from the pull-request dispatcher: only the
actions `review_requested` (with a Bot-typed requested reviewer) and
`ready_for_review` on an open, non-draft pull request trigger a review. -/
def shouldTriggerReview (payload : PullRequestPayload) : Bool :=
  if !(["review_requested", "ready_for_review"].contains payload.action) then false
  else if payload.pull_request.state != "open" then false
  else if payload.pull_request.draft then false
  else if payload.action == "review_requested"
      && (match payload.requested_reviewer with
          | some r => r.type == "Bot"
          | none => false) then true
  else if payload.action == "ready_for_review" then true
  else false

/-- `verifySignature` from the dispatcher, parameterized by the
HMAC-SHA-256 hex digest (an external crypto primitive; arguments: secret,
payload). `timingSafeEqual` throws when the two byte buffers differ in
length — the source catches that and returns false — and otherwise
compares the UTF-8 bytes, which for equal-length encodings is string
equality. -/
def verifySignature (hmacSha256Hex : String → String → String)
    (payload signature secret : String) : Bool :=
  let expected := "sha256=" ++ hmacSha256Hex secret payload
  if signature.utf8ByteSize != expected.utf8ByteSize then false
  else signature == expected

/- ### Auxiliary predicates used by the statements -/

/-- Lowercase hexadecimal digit. -/
def isLowerHexDigit (c : Char) : Bool :=
  ('0' ≤ c && c ≤ '9') || ('a' ≤ c && c ≤ 'f')

/-- ASCII alphanumeric of either case. -/
def isAsciiAlnumAny (c : Char) : Bool :=
  ('a' ≤ c && c ≤ 'z') || ('A' ≤ c && c ≤ 'Z') || ('0' ≤ c && c ≤ '9')

/-- Whether `pat` occurs as a contiguous subsequence of `cs`. -/
def containsSeq (pat : List Char) : List Char → Bool
  | [] => beginsWith pat []
  | c :: rest => beginsWith pat (c :: rest) || containsSeq pat rest

/-- Every event satisfying `P` occurs strictly before every event
satisfying `Q` in the trace. -/
def PrecedesIdx (P Q : Ev → Bool) (tr : List Ev) : Prop :=
  ∀ (i j : Fin tr.length), P (tr.get i) = true → Q (tr.get j) = true → i.val < j.val

/-- The thread-resolution events. -/
def isResolveEv : Ev → Bool
  | Ev.resolveThread _ => true
  | _ => false

/-- The review-comment-creation events. -/
def isCreateEv : Ev → Bool
  | Ev.createComment _ => true
  | _ => false

/-- The top-level review submission events. -/
def isSubmitEv : Ev → Bool
  | Ev.submitRev _ _ => true
  | _ => false

/-- The precheck fetches (changed-file count, changed-file list). -/
def isPrecheckEv : Ev → Bool
  | Ev.getChangedFiles => true
  | Ev.checkNonCode => true
  | _ => false

/-- The label call with the given direction. -/
def isSetLabelsEv (pending : Bool) : Ev → Bool :=
  fun e => e == Ev.setLabels pending

/-- A position chain witnessing that the extraction regex can match: an
opening brace at `p`, the literal `"status"` at `i` after it, the literal
`"findings"` at `j` after that, and a closing brace at `e` after that,
inside the string. -/
def chainAt (cs : List Char) (p i j e : Nat) : Bool :=
  beginsWith [lbrace] (cs.drop p) && beginsWith statusPat (cs.drop i)
    && beginsWith findingsPat (cs.drop j) && beginsWith [rbrace] (cs.drop e)
    && p + 1 ≤ i && i + 8 ≤ j && j + 10 ≤ e && e < cs.length

/- ### Sample inputs shared by witnesses and counterexamples -/

/-- A finding with the given severity and hash at a fixed location. -/
def mkFinding (sev : Severity) (hashVal : String) : Finding :=
  { severity := sev, category := Category.security, confidence := Confidence.high,
    file := "a.ts", line := 1, endLine := none, title := "t", description := "d",
    suggestion := none, severityReason := "r", references := [], hash := hashVal }

/-- An existing comment with the given id and extracted hash. -/
def mkComment (id : Nat) (hashVal : Option String) : ExistingComment :=
  { id := id, body := "", path := "a.ts", line := 1, hash := hashVal }

/-- A fixed metadata block. -/
def mkMetadata : ReviewMetadata :=
  { headCommit := "abc1234def", filesReviewed := 1, skippedFiles := [], reviewDurationMs := 10 }

/-- An engine result with the given status and findings. -/
def mkResult (status : ReviewStatus) (findings : List Finding) : ReviewResult :=
  { status := status, summary := "s", findings := findings, metadata := mkMetadata,
    error := none }

/-- An attempt environment in which every remote call succeeds and the
engine reports the given findings against the given existing comments. -/
def okAttemptEnv (findings : List Finding) (existing : List ExistingComment) : AttemptEnv :=
  { cliAvailable := true, changedFiles := Except.ok 1, nonCode := Except.ok false,
    cloneRes := Except.ok (),
    engine := { success := true, result := some (mkResult ReviewStatus.completed findings),
                error := none, rawOutput := none },
    existing := Except.ok existing, resolveRes := fun _ => Except.ok (),
    createRes := fun _ => Except.ok (), dismissRes := Except.ok (),
    submitRes := Except.ok () }

/-- An attempt environment whose engine invocation fails. -/
def failAttemptEnv : AttemptEnv :=
  { cliAvailable := true, changedFiles := Except.ok 1, nonCode := Except.ok false,
    cloneRes := Except.ok (),
    engine := { success := false, result := none, error := some "engine failed",
                rawOutput := none },
    existing := Except.ok [], resolveRes := fun _ => Except.ok (),
    createRes := fun _ => Except.ok (), dismissRes := Except.ok (),
    submitRes := Except.ok () }

/-- A session environment with the given attempts in which every session
level call succeeds. -/
def mkSessionEnv (a1 a2 : AttemptEnv) : SessionEnv :=
  { fetchPR := Except.ok (), setPendingRes := Except.ok (), attempt1 := a1, attempt2 := a2,
    setReviewedRes := Except.ok (), setReviewedRetryRes := Except.ok (),
    setReviewedFailRes := Except.ok (), postErrorRes := Except.ok () }

/-- A finding whose description already contains an `ai-review` marker
with a different hash, used to exercise the leftmost-match behaviour of
the marker extractor. -/
def hijackFinding : Finding :=
  { severity := Severity.high, category := Category.security, confidence := Confidence.high,
    file := "a.ts", line := 1, endLine := none, title := "t",
    description := "<!-- ai-review: \x7b\"hash\":\"evil\"\x7d -->", suggestion := none,
    severityReason := "r", references := [], hash := "deadbeef" }

/- ### Arithmetic facts about the digest -/

theorem toInt32_lb_ub (n : Int) : -2147483648 ≤ toInt32 n ∧ toInt32 n < 2147483648 := by
  have h1 : 0 ≤ n % 4294967296 := Int.emod_nonneg n (by norm_num)
  have h2 : n % 4294967296 < 4294967296 := Int.emod_lt_of_pos n (by norm_num)
  simp only [toInt32]
  split <;> omega

theorem foldl_hashStep_bounds (l : List Char) (h0 : Int)
    (ha : -2147483648 ≤ h0) (hb : h0 < 2147483648) :
    -2147483648 ≤ l.foldl hashStep h0 ∧ l.foldl hashStep h0 < 2147483648 := by
  induction l generalizing h0 with
  | nil => exact ⟨ha, hb⟩
  | cons c rest ih =>
    have hs := toInt32_lb_ub (toInt32 (h0 * 32) - h0 + (c.toNat : Int))
    exact ih (hashStep h0 c) hs.1 hs.2

theorem hashString_natAbs_lt (s : String) : (hashString s).natAbs < 4294967296 := by
  have h := foldl_hashStep_bounds s.data 0 (by norm_num) (by norm_num)
  simp only [hashString]
  omega

theorem digitChar_isLowerHex (d : Nat) (hd : d < 16) :
    isLowerHexDigit (Nat.digitChar d) = true := by
  interval_cases d <;> decide

theorem natToHexCore_length_le (fuel : Nat) :
    ∀ n, n < 16 ^ fuel → (natToHexCore fuel n).length ≤ fuel := by
  induction fuel with
  | zero =>
    intro n _
    simp [natToHexCore]
  | succ fuel ih =>
    intro n hn
    by_cases h16 : n < 16
    · simp [natToHexCore, h16]
    · simp only [natToHexCore, h16, if_false, List.length_append, List.length_cons,
        List.length_nil]
      have hdiv : n / 16 < 16 ^ fuel := by
        have hmul : n < 16 * 16 ^ fuel := by
          calc n < 16 ^ (fuel + 1) := hn
          _ = 16 * 16 ^ fuel := by ring
        exact Nat.div_lt_of_lt_mul hmul
      have := ih (n / 16) hdiv
      omega

theorem natToHexCore_stable (f1 : Nat) :
    ∀ f2 n, n < 16 ^ f1 → n < 16 ^ f2 → 1 ≤ f1 → 1 ≤ f2 →
      natToHexCore f1 n = natToHexCore f2 n := by
  induction f1 with
  | zero => intro f2 n _ _ h _; omega
  | succ f1 ih =>
    intro f2 n hn1 hn2 _ hf2
    cases f2 with
    | zero => omega
    | succ f2 =>
      by_cases h16 : n < 16
      · simp [natToHexCore, h16]
      · simp only [natToHexCore, h16, if_false]
        have hf1 : 1 ≤ f1 := by
          rcases Nat.eq_zero_or_pos f1 with h0 | h1
          · subst h0
            simp at hn1
            omega
          · exact h1
        have hf2' : 1 ≤ f2 := by
          rcases Nat.eq_zero_or_pos f2 with h0 | h1
          · subst h0
            simp at hn2
            omega
          · exact h1
        have d1 : n / 16 < 16 ^ f1 := by
          apply Nat.div_lt_of_lt_mul
          calc n < 16 ^ (f1 + 1) := hn1
          _ = 16 * 16 ^ f1 := by ring
        have d2 : n / 16 < 16 ^ f2 := by
          apply Nat.div_lt_of_lt_mul
          calc n < 16 ^ (f2 + 1) := hn2
          _ = 16 * 16 ^ f2 := by ring
        rw [ih f2 (n / 16) d1 d2 hf1 hf2']

theorem natToHexDigits_eq_core8 (n : Nat) (h : n < 16 ^ 8) :
    natToHexDigits n = natToHexCore 8 n := by
  have hself : n < 16 ^ (n + 1) := by
    have h1 : n < 16 ^ n := Nat.lt_pow_self (by norm_num) n
    exact lt_of_lt_of_le h1 (Nat.pow_le_pow_right (by norm_num) (by omega))
  exact natToHexCore_stable (n + 1) 8 n hself h (by omega) (by norm_num)

theorem natToHexCore_chars (fuel : Nat) :
    ∀ n, ∀ c ∈ natToHexCore fuel n, isLowerHexDigit c = true := by
  induction fuel with
  | zero =>
    intro n c hc
    simp [natToHexCore] at hc
  | succ fuel ih =>
    intro n c hc
    by_cases h16 : n < 16
    · simp only [natToHexCore, h16, if_true, List.mem_singleton] at hc
      subst hc
      exact digitChar_isLowerHex n h16
    · simp only [natToHexCore, h16, if_false, List.mem_append, List.mem_singleton] at hc
      rcases hc with hc | hc
      · exact ih (n / 16) c hc
      · subst hc
        exact digitChar_isLowerHex (n % 16) (Nat.mod_lt n (by omega))

theorem padStart8_length (s : String) (h : s.length ≤ 8) : (padStart8 s).length = 8 := by
  simp only [padStart8]
  split
  · simp only [String.length_append]
    simp only [String.length]
    simp [List.length_replicate]
    omega
  · omega

theorem padStart8_chars (s : String) :
    ∀ c ∈ (padStart8 s).data, c = '0' ∨ c ∈ s.data := by
  simp only [padStart8]
  split
  · intro c hc
    simp only [String.data_append] at hc
    rcases List.mem_append.mp hc with hc | hc
    · left
      simpa using List.eq_of_mem_replicate (by simpa using hc)
    · right
      exact hc
  · intro c hc
    right
    exact hc

/-- C9: for every input quadruple, `generateHash` returns a string of
exactly 8 characters, each a lowercase hexadecimal digit; the accumulated
32-bit signed hash never exceeds 8 hex digits after taking the absolute
value, and `padStart` brings shorter digests up to width 8. -/
theorem generateHash_eight_lower_hex (file : String) (line : Nat) (endLine : Option Nat)
    (title : String) :
    (generateHash file line endLine title).length = 8
    ∧ (∀ c ∈ (generateHash file line endLine title).data, isLowerHexDigit c = true)
    ∧ (∀ s : String, (hashString s).natAbs < 16 ^ 8) := by
  refine ⟨?_, ?_, ?_⟩
  · unfold generateHash digestHex
    apply padStart8_length
    have hlt := hashString_natAbs_lt
      (file ++ ":" ++ lineRangeText line endLine ++ ":" ++ normalizeTitle title)
    rw [natToHexDigits_eq_core8 _ (by norm_num; omega)]
    have hlen := natToHexCore_length_le 8
      (hashString (file ++ ":" ++ lineRangeText line endLine ++ ":" ++ normalizeTitle title)).natAbs
      (by norm_num; omega)
    simpa [String.length] using hlen
  · intro c hc
    unfold generateHash digestHex at hc
    rcases padStart8_chars _ c hc with h0 | hmem
    · subst h0
      decide
    · exact natToHexCore_chars _ _ c hmem
  · intro s
    have := hashString_natAbs_lt s
    norm_num
    omega

/-- C9 witness: a concrete instance of the digest-shape theorem. -/
theorem generateHash_eight_lower_hex_witness :
    (generateHash "src/index.ts" 5 none "Unchecked input").length = 8 :=
  (generateHash_eight_lower_hex "src/index.ts" 5 none "Unchecked input").1

theorem char_le_iff_toNat {a b : Char} : a ≤ b ↔ a.toNat ≤ b.toNat := by
  rw [Char.le_def, UInt32.le_def, BitVec.le_def]
  exact Iff.rfl

theorem toNat_ofNat_ascii {n : Nat} (h : n < 128) : (Char.ofNat n).toNat = n := by
  rw [Char.ofNat]
  rw [dif_pos (Or.inl (by omega))]
  simp [Char.ofNatAux, Char.toNat, UInt32.toNat]

theorem toLower_alnum (c : Char) : isAsciiLowerAlnum (Char.toLower c) = isAsciiAlnumAny c := by
  have h97 : ('a').toNat = 97 := rfl
  have h122 : ('z').toNat = 122 := rfl
  have h65 : ('A').toNat = 65 := rfl
  have h90 : ('Z').toNat = 90 := rfl
  have h48 : ('0').toNat = 48 := rfl
  have h57 : ('9').toNat = 57 := rfl
  simp only [isAsciiLowerAlnum, isAsciiAlnumAny, Char.toLower]
  rw [Bool.eq_iff_iff]
  simp only [Bool.or_eq_true, Bool.and_eq_true, decide_eq_true_eq]
  split
  · next h =>
    have ht : (Char.ofNat (c.toNat + 32)).toNat = c.toNat + 32 := toNat_ofNat_ascii (by omega)
    simp only [char_le_iff_toNat, ht, h97, h122, h65, h90, h48, h57]
    omega
  · next h =>
    simp only [char_le_iff_toNat, h97, h122, h65, h90, h48, h57]
    omega

theorem filter_lower_comm (l : List Char) :
    (l.map Char.toLower).filter isAsciiLowerAlnum = (l.filter isAsciiAlnumAny).map Char.toLower := by
  induction l with
  | nil => rfl
  | cons c cs ih =>
    by_cases h : isAsciiAlnumAny c = true
    · simp [List.filter_cons, toLower_alnum, h, ih]
    · simp [List.filter_cons, toLower_alnum, h, ih]

/-- C2 (amended): `generateHash` is deterministic and keyed only on file,
line range, and normalized title — two findings agreeing on those four
fields hash identically regardless of severity, description, or
confidence; normalization case-folds the title and strips every
non-alphanumeric character; the line-range component is `startLine` alone
when `endLine` is absent and `startLine-endLine` when a *positive*
`endLine` is present (an `endLine` of 0 is falsy in JavaScript and is
treated as absent — the only change from the original claim). -/
theorem generateHash_keyed (file : String) (line : Nat) (endLine : Option Nat) (title : String) :
    (generateHash file line endLine title = generateHash file line endLine title)
    ∧ (∀ f g : Finding, f.file = g.file → f.line = g.line → f.endLine = g.endLine →
        f.title = g.title → findingLocationHash f = findingLocationHash g)
    ∧ (normalizeTitle title = String.mk ((title.data.filter isAsciiAlnumAny).map Char.toLower))
    ∧ (endLine = none →
        generateHash file line endLine title
          = digestHex (file ++ ":" ++ toString line ++ ":" ++ normalizeTitle title))
    ∧ (∀ k, endLine = some k → 0 < k →
        generateHash file line endLine title
          = digestHex (file ++ ":" ++ toString line ++ "-" ++ toString k ++ ":"
              ++ normalizeTitle title)) := by
  refine ⟨rfl, ?_, ?_, ?_, ?_⟩
  · intro f g h1 h2 h3 h4
    unfold findingLocationHash
    rw [h1, h2, h3, h4]
  · unfold normalizeTitle
    rw [filter_lower_comm]
  · intro h
    subst h
    rfl
  · intro k h hk
    subst h
    have hk0 : (k != 0) = true := by simpa using Nat.pos_iff_ne_zero.mp hk
    simp [generateHash, lineRangeText, hk0, String.append_assoc]

/-- C2 witness: the amended structure theorem applied at a concrete
positive-`endLine` input. -/
theorem generateHash_keyed_witness :
    generateHash "a.ts" 2 (some 5) "Npe Risk!"
      = digestHex ("a.ts" ++ ":" ++ toString 2 ++ "-" ++ toString 5 ++ ":"
          ++ normalizeTitle "Npe Risk!") :=
  (generateHash_keyed "a.ts" 2 (some 5) "Npe Risk!").2.2.2.2 5 rfl (by norm_num)

/-- C2 counterexample: with `endLine` present but equal to 0 the hash is
computed from the single-line range `1`, not from the range `1-0` the
claim prescribes for every present `endLine`. -/
theorem generateHash_zero_endline_cex :
    generateHash "a" 1 (some 0) "" = digestHex ("a" ++ ":" ++ toString 1 ++ ":" ++ "")
    ∧ generateHash "a" 1 (some 0) ""
        ≠ digestHex ("a" ++ ":" ++ toString 1 ++ "-" ++ toString 0 ++ ":" ++ "") := by
  constructor
  · rfl
  · decide

/- ### C1: the reconciliation partition -/

theorem reconcileLoop_fst_eq (nh : List String) (cs : List ExistingComment) :
    (reconcileLoop nh cs).1
      = (cs.filter (fun c => match c.hash with
          | none => false
          | some h => !nh.contains h)).map (fun c => c.id) := by
  induction cs with
  | nil => rfl
  | cons c rest ih =>
    rcases hc : c.hash with _ | h
    · simp [reconcileLoop, List.filter_cons, hc, ih]
    · by_cases hmem : h ∈ nh
      · simp [reconcileLoop, List.filter_cons, hc, hmem, ih]
      · simp [reconcileLoop, List.filter_cons, hc, hmem, ih]

theorem reconcileLoop_snd_eq (nh : List String) (cs : List ExistingComment) :
    (reconcileLoop nh cs).2
      = (cs.filter (fun c => match c.hash with
          | none => false
          | some h => nh.contains h)).map (fun c => c.id) := by
  induction cs with
  | nil => rfl
  | cons c rest ih =>
    rcases hc : c.hash with _ | h
    · simp [reconcileLoop, List.filter_cons, hc, ih]
    · by_cases hmem : h ∈ nh
      · simp [reconcileLoop, List.filter_cons, hc, hmem, ih]
      · simp [reconcileLoop, List.filter_cons, hc, hmem, ih]

theorem mem_fixed_iff (fs : List Finding) (cs : List ExistingComment) (i : Nat) :
    i ∈ (reconcileFindings fs cs).fixedCommentIds ↔
      ∃ c ∈ cs, c.id = i ∧ ∃ h, c.hash = some h ∧ ¬ h ∈ fs.map (fun f => f.hash) := by
  show i ∈ (reconcileLoop (fs.map (fun f => f.hash)) cs).1 ↔ _
  rw [reconcileLoop_fst_eq]
  simp only [List.mem_map, List.mem_filter]
  constructor
  · rintro ⟨c, ⟨hm, hp⟩, rfl⟩
    rcases hh : c.hash with _ | h
    · rw [hh] at hp
      cases hp
    · rw [hh] at hp
      simp only [Bool.not_eq_true'] at hp
      refine ⟨c, hm, rfl, h, hh, ?_⟩
      intro hmem
      have hcont : (fs.map (fun f => f.hash)).contains h = true := by
        simpa using hmem
      rw [hp] at hcont
      cases hcont
  · rintro ⟨c, hm, rfl, h, hh, hnm⟩
    refine ⟨c, ⟨hm, ?_⟩, rfl⟩
    rw [hh]
    simp [hnm]

theorem mem_persisting_iff (fs : List Finding) (cs : List ExistingComment) (i : Nat) :
    i ∈ (reconcileFindings fs cs).persistingCommentIds ↔
      ∃ c ∈ cs, c.id = i ∧ ∃ h, c.hash = some h ∧ h ∈ fs.map (fun f => f.hash) := by
  show i ∈ (reconcileLoop (fs.map (fun f => f.hash)) cs).2 ↔ _
  rw [reconcileLoop_snd_eq]
  simp only [List.mem_map, List.mem_filter]
  constructor
  · rintro ⟨c, ⟨hm, hp⟩, rfl⟩
    rcases hh : c.hash with _ | h
    · rw [hh] at hp
      cases hp
    · rw [hh] at hp
      refine ⟨c, hm, rfl, h, hh, ?_⟩
      simpa using hp
  · rintro ⟨c, hm, rfl, h, hh, hnm⟩
    refine ⟨c, ⟨hm, ?_⟩, rfl⟩
    rw [hh]
    simpa using hnm

theorem not_contains_filterMap_iff_all (cs : List ExistingComment) (x : String) :
    (!((cs.filterMap (fun c => c.hash)).contains x)) = cs.all (fun c => c.hash != some x) := by
  induction cs with
  | nil => rfl
  | cons c rest ih =>
    rcases hc : c.hash with _ | h
    · simp only [List.filterMap_cons, hc, List.all_cons]
      rw [← ih]
      simp
    · by_cases hx : h = x
      · subst hx
        simp [List.filterMap_cons, hc]
      · simp only [List.filterMap_cons, hc, List.all_cons]
        rw [← ih]
        simp [hx, Ne.symm hx]

/-- C1 (amended): for every pair of inputs whose existing comments carry
pairwise-distinct ids — the identifier regime of the remote platform — the
three outputs of `reconcileFindings` form a partition: the two id lists
are disjoint, every existing comment with a non-null hash lands in exactly
one of them (persisting iff its hash occurs among the current findings'
hashes), ids only come from comments with a non-null hash, and
`newFindings` is exactly the sublist of the current findings whose hash
occurs in no existing comment. (The distinct-id hypothesis is the only
change from the original claim: with a duplicated id the two id lists can
overlap.) -/
theorem reconcileFindings_partition (fs : List Finding) (cs : List ExistingComment)
    (hids : (cs.map (fun c => c.id)).Nodup) :
    (∀ i, i ∈ (reconcileFindings fs cs).fixedCommentIds →
        i ∉ (reconcileFindings fs cs).persistingCommentIds)
    ∧ (∀ c ∈ cs, ∀ h, c.hash = some h →
        (c.id ∈ (reconcileFindings fs cs).persistingCommentIds ↔
          h ∈ fs.map (fun f => f.hash))
        ∧ (c.id ∈ (reconcileFindings fs cs).fixedCommentIds ↔
          ¬ h ∈ fs.map (fun f => f.hash)))
    ∧ (∀ i, i ∈ (reconcileFindings fs cs).fixedCommentIds
          ∨ i ∈ (reconcileFindings fs cs).persistingCommentIds →
        ∃ c ∈ cs, c.id = i ∧ c.hash ≠ none)
    ∧ (reconcileFindings fs cs).newFindings
        = fs.filter (fun f => cs.all (fun c => c.hash != some f.hash)) := by
  have hinj := List.inj_on_of_nodup_map hids
  refine ⟨?_, ?_, ?_, ?_⟩
  · intro i hf hp
    rcases (mem_fixed_iff fs cs i).mp hf with ⟨c1, hm1, hid1, h1, hh1, hn1⟩
    rcases (mem_persisting_iff fs cs i).mp hp with ⟨c2, hm2, hid2, h2, hh2, hn2⟩
    have hceq : c1 = c2 := hinj hm1 hm2 (by rw [hid1, hid2])
    subst hceq
    rw [hh1] at hh2
    cases hh2
    exact hn1 hn2
  · intro c hm h hh
    constructor
    · constructor
      · intro hp
        rcases (mem_persisting_iff fs cs c.id).mp hp with ⟨c2, hm2, hid2, h2, hh2, hn2⟩
        have hceq : c2 = c := hinj hm2 hm hid2
        subst hceq
        rw [hh] at hh2
        cases hh2
        exact hn2
      · intro hmem
        exact (mem_persisting_iff fs cs c.id).mpr ⟨c, hm, rfl, h, hh, hmem⟩
    · constructor
      · intro hf
        rcases (mem_fixed_iff fs cs c.id).mp hf with ⟨c2, hm2, hid2, h2, hh2, hn2⟩
        have hceq : c2 = c := hinj hm2 hm hid2
        subst hceq
        rw [hh] at hh2
        cases hh2
        exact hn2
      · intro hmem
        exact (mem_fixed_iff fs cs c.id).mpr ⟨c, hm, rfl, h, hh, hmem⟩
  · intro i hi
    rcases hi with hi | hi
    · rcases (mem_fixed_iff fs cs i).mp hi with ⟨c, hm, hid, h, hh, _⟩
      exact ⟨c, hm, hid, by simp [hh]⟩
    · rcases (mem_persisting_iff fs cs i).mp hi with ⟨c, hm, hid, h, hh, _⟩
      exact ⟨c, hm, hid, by simp [hh]⟩
  · show fs.filter _ = _
    apply List.filter_congr
    intro f _
    exact not_contains_filterMap_iff_all cs f.hash

/-- C1 witness: the amended partition theorem applied at distinct-id
inputs — comment 2 is fixed and therefore not persisting. -/
theorem reconcileFindings_partition_witness :
    2 ∉ (reconcileFindings [mkFinding Severity.high "a"]
          [mkComment 1 (some "a"), mkComment 2 (some "b")]).persistingCommentIds :=
  (reconcileFindings_partition [mkFinding Severity.high "a"]
    [mkComment 1 (some "a"), mkComment 2 (some "b")] (by decide)).1 2 (by decide)

/-- C1 counterexample: the claim as stated fails for inputs with a
duplicated comment id — two comments sharing id 1, one with a persisting
hash and one with a fixed hash, put 1 in both output id lists, so the
outputs are not pairwise disjoint and that comment id does not land in
exactly one list. -/
theorem reconcileFindings_partition_cex :
    1 ∈ (reconcileFindings [mkFinding Severity.high "a"]
          [mkComment 1 (some "a"), mkComment 1 (some "b")]).fixedCommentIds
    ∧ 1 ∈ (reconcileFindings [mkFinding Severity.high "a"]
          [mkComment 1 (some "a"), mkComment 1 (some "b")]).persistingCommentIds := by
  decide

/- ### Infrastructure for reasoning about session traces -/

theorem sess_bind_eq (s : Sess α) (f : α → Sess β) : s >>= f = Sess.bind s f := rfl

theorem Sess.bind_ok (tr : List Ev) (a : α) (f : α → Sess β) :
    Sess.bind (tr, Except.ok a) f = (tr ++ (f a).1, (f a).2) := rfl

theorem Sess.bind_error (tr : List Ev) (msg : String) (f : α → Sess β) :
    Sess.bind (tr, Except.error msg) f = (tr, Except.error msg) := rfl

theorem sbind_forall {P : Ev → Prop} (s : Sess α) (f : α → Sess β)
    (hs : ∀ e ∈ s.1, P e) (hf : ∀ a, ∀ e ∈ (f a).1, P e) :
    ∀ e ∈ (s >>= f).1, P e := by
  rcases s with ⟨tr, r⟩
  cases r with
  | error msg =>
    rw [sess_bind_eq, Sess.bind_error]
    exact hs
  | ok a =>
    rw [sess_bind_eq, Sess.bind_ok]
    intro e he
    rcases List.mem_append.mp he with he | he
    · exact hs e he
    · exact hf a e he

theorem callEach_events {α : Type} (mk : α → Ev) (res : α → Except String Unit)
    (l : List α) : ∀ e ∈ (callEach mk res l).1, ∃ x ∈ l, e = mk x := by
  induction l with
  | nil =>
    intro e he
    cases he
  | cons x xs ih =>
    intro e he
    simp only [callEach] at he
    rcases hres : res x with msg | u
    · rw [hres] at he
      simp only [callRemote, Sess.bind_error, List.mem_singleton] at he
      exact ⟨x, List.mem_cons_self x xs, he⟩
    · rw [hres] at he
      simp only [callRemote, Sess.bind_ok, List.singleton_append, List.mem_cons] at he
      rcases he with rfl | he
      · exact ⟨x, List.mem_cons_self x xs, rfl⟩
      · rcases ih e he with ⟨y, hy, hey⟩
        exact ⟨y, List.mem_cons_of_mem x hy, hey⟩

theorem precedesIdx_of_noP (P Q : Ev → Bool) (tr : List Ev)
    (h : ∀ e ∈ tr, P e = false) : PrecedesIdx P Q tr := by
  intro i j hip _
  have := h (tr.get i) (tr.get_mem i i.isLt)
  rw [hip] at this
  cases this

theorem precedesIdx_of_noQ (P Q : Ev → Bool) (tr : List Ev)
    (h : ∀ e ∈ tr, Q e = false) : PrecedesIdx P Q tr := by
  intro i j _ hjq
  have := h (tr.get j) (tr.get_mem j j.isLt)
  rw [hjq] at this
  cases this

theorem precedesIdx_of_split (P Q : Ev → Bool) (a b : List Ev)
    (ha : ∀ e ∈ a, Q e = false) (hb : ∀ e ∈ b, P e = false) :
    PrecedesIdx P Q (a ++ b) := by
  intro i j hip hjq
  have hi : i.val < a.length := by
    by_contra hge
    have hb' := hb ((a ++ b).get i) ?_
    · rw [hip] at hb'
      cases hb'
    · rw [List.get_eq_getElem, List.getElem_append_right (by omega)]
      exact List.getElem_mem _
  have hj : a.length ≤ j.val := by
    by_contra hlt
    have ha' := ha ((a ++ b).get j) ?_
    · rw [hjq] at ha'
      cases ha'
    · rw [List.get_eq_getElem, List.getElem_append_left (by omega)]
      exact List.getElem_mem _
  omega

theorem withCleanup_forall {P : Ev → Prop} (s : Sess α) (hs : ∀ e ∈ s.1, P e)
    (hr : P Ev.removeWorkdir) : ∀ e ∈ (withWorkdirCleanup s).1, P e := by
  intro e he
  simp only [withWorkdirCleanup, List.mem_append, List.mem_singleton] at he
  rcases he with he | rfl
  · exact hs e he
  · exact hr

theorem performReview_trace_forall (cfg : ReviewerConfig) (env : AttemptEnv)
    {P : Ev → Prop}
    (h1 : ∀ b, P (Ev.cliCheck b))
    (h2 : P Ev.getChangedFiles)
    (h3 : P Ev.checkNonCode)
    (h4 : P Ev.cloneRepo)
    (h5 : P Ev.runEngine)
    (h6 : P Ev.getExisting)
    (h7 : ∀ i, P (Ev.resolveThread i))
    (h8 : ∀ hsh, P (Ev.createComment hsh))
    (h9 : P Ev.dismissStale)
    (h10 : ∀ a s, P (Ev.submitRev a s))
    (h11 : P Ev.removeWorkdir) :
    ∀ e ∈ (performReview cfg env).1, P e := by
  unfold performReview
  apply sbind_forall
  · intro e he
    simp only [callRemote, List.mem_singleton] at he
    subst he
    exact h1 _
  · intro avail
    cases avail
    · intro e he
      simp [sessFail] at he
    · simp only [if_true]
      apply sbind_forall
      · intro e he
        simp only [callRemote, List.mem_singleton] at he
        subst he
        exact h2
      · intro n
        by_cases hn : n > cfg.maxFilesThreshold
        · simp only [hn, if_true]
          apply sbind_forall
          · intro e he
            simp only [callRemote, List.mem_singleton] at he
            subst he
            exact h10 _ _
          · intro _ e he
            simp [Sess.pure] at he
        · simp only [hn, if_false]
          apply sbind_forall
          · intro e he
            simp only [callRemote, List.mem_singleton] at he
            subst he
            exact h3
          · intro nc
            cases nc
            · simp only [Bool.false_eq_true, if_false]
              apply withCleanup_forall _ ?_ h11
              apply sbind_forall
              · intro e he
                simp only [callRemote, List.mem_singleton] at he
                subst he
                exact h4
              · intro _
                apply sbind_forall
                · intro e he
                  simp only [emitEv, List.mem_singleton] at he
                  subst he
                  exact h5
                · intro _
                  rcases hsucc : env.engine.success with _ | _ <;>
                    rcases hres : env.engine.result with _ | result <;>
                    simp only []
                  · intro e he
                    simp [sessFail] at he
                  · intro e he
                    simp [sessFail] at he
                  · intro e he
                    simp [sessFail] at he
                  · by_cases hst : result.status == ReviewStatus.skipped
                    · simp only [hst, if_true]
                      apply sbind_forall
                      · intro e he
                        simp only [callRemote, List.mem_singleton] at he
                        subst he
                        exact h10 _ _
                      · intro _ e he
                        simp [Sess.pure] at he
                    · simp only [hst, if_false]
                      apply sbind_forall
                      · intro e he
                        simp only [callRemote, List.mem_singleton] at he
                        subst he
                        exact h6
                      · intro existing
                        apply sbind_forall
                        · intro e he
                          rcases callEach_events _ _ _ e he with ⟨x, _, rfl⟩
                          exact h7 _
                        · intro _
                          apply sbind_forall
                          · intro e he
                            rcases callEach_events _ _ _ e he with ⟨x, _, rfl⟩
                            exact h8 _
                          · intro _
                            split
                            · apply sbind_forall
                              · intro e he
                                simp only [callRemote, List.mem_singleton] at he
                                subst he
                                exact h9
                              · intro _
                                apply sbind_forall
                                · intro e he
                                  simp only [callRemote, List.mem_singleton] at he
                                  subst he
                                  exact h10 _ _
                                · intro _ e he
                                  simp [Sess.pure] at he
                            · apply sbind_forall
                              · intro e he
                                simp [Sess.pure] at he
                              · intro _
                                apply sbind_forall
                                · intro e he
                                  simp only [callRemote, List.mem_singleton] at he
                                  subst he
                                  exact h10 _ _
                                · intro _ e he
                                  simp [Sess.pure] at he
            · simp only [if_true]
              apply sbind_forall
              · intro e he
                simp only [callRemote, List.mem_singleton] at he
                subst he
                exact h10 _ _
              · intro _ e he
                simp [Sess.pure] at he

theorem performReview_reviewed_submit (cfg : ReviewerConfig) (env : AttemptEnv)
    (result : ReviewResult) (outcome : ReviewOutcome)
    (hres : env.engine.result = some result)
    (hok : (performReview cfg env).2 = Except.ok outcome)
    (hrev : outcome.action = some OutcomeAction.reviewed) :
    ∀ a s, Ev.submitRev a s ∈ (performReview cfg env).1 →
      a = determineReviewAction result.findings := by
  obtain ⟨avail, changed, nonCode, clone, engine, existing, resolveRes, createRes,
    dismissRes, submitRes⟩ := env
  obtain ⟨esucc, eres, eerr, eraw⟩ := engine
  simp only at hres
  subst hres
  intro a s hmem
  cases avail with
  | false =>
    simp [performReview, sess_bind_eq, Sess.bind_ok, Sess.bind_error, callRemote,
      sessFail] at hok
  | true =>
    rcases changed with msg | n
    · simp [performReview, sess_bind_eq, Sess.bind_ok, Sess.bind_error, callRemote] at hok
    · by_cases hn : n > cfg.maxFilesThreshold
      · rcases submitRes with msg | u
        · simp [performReview, sess_bind_eq, Sess.bind_ok, Sess.bind_error, callRemote,
            hn] at hok
        · simp [performReview, sess_bind_eq, Sess.bind_ok, Sess.bind_error, callRemote,
            hn, Sess.pure] at hok
          rw [← hok] at hrev
          simp at hrev
      · rcases nonCode with msg | nc
        · simp [performReview, sess_bind_eq, Sess.bind_ok, Sess.bind_error, callRemote,
            hn] at hok
        · cases nc with
          | true =>
            rcases submitRes with msg | u
            · simp [performReview, sess_bind_eq, Sess.bind_ok, Sess.bind_error,
                callRemote, hn] at hok
            · simp [performReview, sess_bind_eq, Sess.bind_ok, Sess.bind_error,
                callRemote, hn, Sess.pure] at hok
              rw [← hok] at hrev
              simp at hrev
          | false =>
            rcases clone with msg | u
            · simp [performReview, sess_bind_eq, Sess.bind_ok, Sess.bind_error,
                callRemote, hn, withWorkdirCleanup] at hok
            · cases esucc with
              | false =>
                simp [performReview, sess_bind_eq, Sess.bind_ok, Sess.bind_error,
                  callRemote, emitEv, hn, withWorkdirCleanup, sessFail] at hok
              | true =>
                by_cases hst : result.status == ReviewStatus.skipped
                · rcases submitRes with msg | u
                  · simp [performReview, sess_bind_eq, Sess.bind_ok, Sess.bind_error,
                      callRemote, emitEv, hn, hst, withWorkdirCleanup] at hok
                  · simp [performReview, sess_bind_eq, Sess.bind_ok, Sess.bind_error,
                      callRemote, emitEv, hn, hst, withWorkdirCleanup, Sess.pure] at hok
                    rw [← hok] at hrev
                    simp at hrev
                · rcases existing with msg | excs
                  · simp [performReview, sess_bind_eq, Sess.bind_ok, Sess.bind_error,
                      callRemote, emitEv, hn, hst, withWorkdirCleanup] at hok
                  · rcases hcr : callEach Ev.resolveThread resolveRes
                        (reconcileFindings result.findings excs).fixedCommentIds with ⟨rtr, rres⟩
                    rcases rres with msg | u
                    · simp [performReview, sess_bind_eq, Sess.bind_ok, Sess.bind_error,
                        callRemote, emitEv, hn, hst, withWorkdirCleanup, hcr] at hok
                    · rcases hcc : callEach (fun f => Ev.createComment f.hash)
                          (fun f => createRes f.hash)
                          (sortFindingsBySeverity
                            (reconcileFindings result.findings excs).newFindings)
                          with ⟨ctr, cres⟩
                      rcases cres with msg | u
                      · simp [performReview, sess_bind_eq, Sess.bind_ok, Sess.bind_error,
                          callRemote, emitEv, hn, hst, withWorkdirCleanup, hcr, hcc] at hok
                      · have hrev1 := callEach_events Ev.resolveThread resolveRes
                          (reconcileFindings result.findings excs).fixedCommentIds
                        rw [hcr] at hrev1
                        have hcrev := callEach_events (fun f => Ev.createComment f.hash)
                          (fun f => createRes f.hash)
                          (sortFindingsBySeverity
                            (reconcileFindings result.findings excs).newFindings)
                        rw [hcc] at hcrev
                        by_cases hdm : shouldDismissPreviousReview result.findings = true
                        · rcases dismissRes with msg | u
                          · simp [performReview, sess_bind_eq, Sess.bind_ok,
                              Sess.bind_error, callRemote, emitEv, hn, hst,
                              withWorkdirCleanup, hcr, hcc, hdm] at hok
                          · rcases submitRes with msg | u
                            · simp [performReview, sess_bind_eq, Sess.bind_ok,
                                Sess.bind_error, callRemote, emitEv, hn, hst,
                                withWorkdirCleanup, hcr, hcc, hdm] at hok
                            · simp only [performReview, sess_bind_eq, Sess.bind_ok,
                                Sess.bind_error, callRemote, emitEv, hn, hst,
                                withWorkdirCleanup, hcr, hcc, hdm, Sess.pure, if_false,
                                if_true, gt_iff_lt, Bool.false_eq_true] at hmem
                              simp only [List.append_assoc, List.cons_append,
                                List.nil_append, List.mem_append, List.mem_cons,
                                List.mem_singleton, List.not_mem_nil, or_false] at hmem
                              rcases hmem with h | h | h | h | h | h | h | h | h | h | h
                              all_goals try (rcases hrev1 _ h with ⟨x, _, hx⟩; cases hx)
                              all_goals try (rcases hcrev _ h with ⟨x, _, hx⟩; cases hx)
                              all_goals try (injection h with ha hs; try exact ha)
                              all_goals try (cases h)
                        · rcases submitRes with msg | u
                          · simp [performReview, sess_bind_eq, Sess.bind_ok,
                              Sess.bind_error, callRemote, emitEv, hn, hst,
                              withWorkdirCleanup, hcr, hcc, hdm, Sess.pure] at hok
                          · simp only [performReview, sess_bind_eq, Sess.bind_ok,
                              Sess.bind_error, callRemote, emitEv, hn, hst,
                              withWorkdirCleanup, hcr, hcc, hdm, Sess.pure, if_false,
                              if_true, gt_iff_lt, Bool.false_eq_true] at hmem
                            simp only [List.append_assoc, List.cons_append,
                              List.nil_append, List.mem_append, List.mem_cons,
                              List.mem_singleton, List.not_mem_nil, or_false] at hmem
                            rcases hmem with h | h | h | h | h | h | h | h | h | h
                            all_goals try (rcases hrev1 _ h with ⟨x, _, hx⟩; cases hx)
                            all_goals try (rcases hcrev _ h with ⟨x, _, hx⟩; cases hx)
                            all_goals try (injection h with ha hs; try exact ha)
                            all_goals try (cases h)

/-- C3: `determineReviewAction` returns request-changes iff some finding is
critical, comment iff none is critical but some is high, and approve
otherwise (including the empty list); and in the session the submitted
verdict is computed from the engine's complete current finding list
(`result.findings`), not from the reconciled `newFindings` subset: every
top-level review submitted by a run that ends in the reviewed outcome
carries exactly `determineReviewAction result.findings`. -/
theorem determineReviewAction_spec (findings : List Finding) :
    (determineReviewAction findings = ReviewAction.requestChanges ↔
        ∃ f ∈ findings, f.severity = Severity.critical)
    ∧ (determineReviewAction findings = ReviewAction.comment ↔
        ((¬ ∃ f ∈ findings, f.severity = Severity.critical)
          ∧ ∃ f ∈ findings, f.severity = Severity.high))
    ∧ (determineReviewAction findings = ReviewAction.approve ↔
        ((¬ ∃ f ∈ findings, f.severity = Severity.critical)
          ∧ ¬ ∃ f ∈ findings, f.severity = Severity.high))
    ∧ (∀ cfg env (result : ReviewResult) (outcome : ReviewOutcome),
        env.engine.result = some result →
        (performReview cfg env).2 = Except.ok outcome →
        outcome.action = some OutcomeAction.reviewed →
        ∀ a s, Ev.submitRev a s ∈ (performReview cfg env).1 →
          a = determineReviewAction result.findings) := by
  have hca : (findings.any (fun f => f.severity == Severity.critical) = true) ↔
      ∃ f ∈ findings, f.severity = Severity.critical := by
    simp [List.any_eq_true]
  have hha : (findings.any (fun f => f.severity == Severity.high) = true) ↔
      ∃ f ∈ findings, f.severity = Severity.high := by
    simp [List.any_eq_true]
  refine ⟨?_, ?_, ?_, ?_⟩
  · by_cases h1 : findings.any (fun f => f.severity == Severity.critical) = true <;>
      by_cases h2 : findings.any (fun f => f.severity == Severity.high) = true <;>
      simp [determineReviewAction, h1, h2, ← hca, ← hha]
  · by_cases h1 : findings.any (fun f => f.severity == Severity.critical) = true <;>
      by_cases h2 : findings.any (fun f => f.severity == Severity.high) = true <;>
      simp [determineReviewAction, h1, h2, ← hca, ← hha]
  · by_cases h1 : findings.any (fun f => f.severity == Severity.critical) = true <;>
      by_cases h2 : findings.any (fun f => f.severity == Severity.high) = true <;>
      simp [determineReviewAction, h1, h2, ← hca, ← hha]
  · intro cfg env result outcome hres hok hrev
    exact performReview_reviewed_submit cfg env result outcome hres hok hrev

/-- C3 witness: a session whose engine reports one critical finding ends
reviewed, and its submitted action is the request-changes verdict computed
from the full finding list. -/
theorem determineReviewAction_spec_witness :
    ReviewAction.requestChanges
      = determineReviewAction
          (mkResult ReviewStatus.completed [mkFinding Severity.critical "a"]).findings :=
  (determineReviewAction_spec [mkFinding Severity.critical "a"]).2.2.2
    { maxFilesThreshold := 100, retryOnError := true }
    (okAttemptEnv [mkFinding Severity.critical "a"] [])
    (mkResult ReviewStatus.completed [mkFinding Severity.critical "a"])
    { success := true, action := some OutcomeAction.reviewed,
      message := "Review complete: request_changes", findingsCount := some 1 }
    (by decide) (by rfl) (by decide)
    ReviewAction.requestChanges true (by decide)

/- ### C5: the label flip on every terminal outcome -/

theorem setLabelsResult_reviewed (current : List String) :
    ¬ labelPending ∈ setLabelsResult false current
    ∧ labelReviewed ∈ setLabelsResult false current := by
  simp only [setLabelsResult, labelPending, labelReviewed, Bool.false_eq_true, ite_false]
  by_cases hc : current.contains "ai-reviewed" = true
  · have hm : "ai-reviewed" ∈ current := by simpa using hc
    rw [if_pos hc]
    constructor
    · intro hmem
      rw [List.mem_filter] at hmem
      simp at hmem
    · rw [List.mem_filter]
      exact ⟨hm, by decide⟩
  · rw [if_neg hc]
    constructor
    · intro hmem
      rcases List.mem_append.mp hmem with hmem | hmem
      · rw [List.mem_filter] at hmem
        simp at hmem
      · simp at hmem
    · exact List.mem_append.mpr (Or.inr (by simp))

/-- C5: on every terminal outcome of `runReview` except an initial
PR-metadata fetch failure, the session calls the reviewed-label flip:
whenever `runReview` returns an outcome and the fetch succeeded, the trace
contains the `setLabels false` call; in particular when the work phase
fails and (with the retry policy on) the retry fails again, the session
posts an error comment, returns an error outcome, and still performs the
flip; and the flip itself always leaves the reviewed label present and the
pending label absent. -/
theorem runReview_label_flip :
    (∀ cfg env (outcome : ReviewOutcome),
        (runReview cfg env).2 = Except.ok outcome →
        env.fetchPR = Except.ok () →
        Ev.setLabels false ∈ (runReview cfg env).1)
    ∧ (∀ cfg env (m1 m2 : String),
        cfg.retryOnError = true →
        env.fetchPR = Except.ok () →
        env.setPendingRes = Except.ok () →
        (performReview cfg env.attempt1).2 = Except.error m1 →
        (performReview cfg env.attempt2).2 = Except.error m2 →
        env.postErrorRes = Except.ok () →
        env.setReviewedFailRes = Except.ok () →
        (runReview cfg env).2 = Except.ok
            { success := false, action := some OutcomeAction.error, message := m2,
              findingsCount := none }
          ∧ Ev.postErrorComment ∈ (runReview cfg env).1
          ∧ Ev.setLabels false ∈ (runReview cfg env).1)
    ∧ (∀ current, ¬ labelPending ∈ setLabelsResult false current
        ∧ labelReviewed ∈ setLabelsResult false current) := by
  refine ⟨?_, ?_, fun current => setLabelsResult_reviewed current⟩
  · intro cfg env outcome hok hf
    obtain ⟨fetchPR, setPendingRes, a1, a2, sr, srr, srf, per⟩ := env
    simp only at hf
    subst hf
    rcases setPendingRes with msg | u
    · simp [runReview, sess_bind_eq, Sess.bind_ok, Sess.bind_error, callRemote,
        sessAttempt, Sess.pure] at hok
    · rcases hp1 : performReview cfg a1 with ⟨t1, r1⟩
      rcases r1 with m1 | o1
      · rcases hrt : cfg.retryOnError with _ | _
        · rcases per with pm | pu
          · simp [runReview, sess_bind_eq, Sess.bind_ok, Sess.bind_error, callRemote,
              sessAttempt, Sess.pure, hp1, hrt] at hok
          · rcases srf with fm | fu
            · simp [runReview, sess_bind_eq, Sess.bind_ok, Sess.bind_error, callRemote,
                sessAttempt, Sess.pure, hp1, hrt] at hok
            · simp [runReview, sess_bind_eq, Sess.bind_ok, Sess.bind_error, callRemote,
                sessAttempt, Sess.pure, hp1, hrt]
        · rcases hp2 : performReview cfg a2 with ⟨t2, r2⟩
          rcases r2 with m2 | o2
          · rcases per with pm | pu
            · simp [runReview, sess_bind_eq, Sess.bind_ok, Sess.bind_error, callRemote,
                sessAttempt, Sess.pure, hp1, hp2, hrt] at hok
            · rcases srf with fm | fu
              · simp [runReview, sess_bind_eq, Sess.bind_ok, Sess.bind_error,
                  callRemote, sessAttempt, Sess.pure, hp1, hp2, hrt] at hok
              · simp [runReview, sess_bind_eq, Sess.bind_ok, Sess.bind_error,
                  callRemote, sessAttempt, Sess.pure, hp1, hp2, hrt]
          · rcases srr with rm | ru
            · rcases per with pm | pu
              · simp [runReview, sess_bind_eq, Sess.bind_ok, Sess.bind_error,
                  callRemote, sessAttempt, Sess.pure, hp1, hp2, hrt] at hok
              · rcases srf with fm | fu
                · simp [runReview, sess_bind_eq, Sess.bind_ok, Sess.bind_error,
                    callRemote, sessAttempt, Sess.pure, hp1, hp2, hrt] at hok
                · simp [runReview, sess_bind_eq, Sess.bind_ok, Sess.bind_error,
                    callRemote, sessAttempt, Sess.pure, hp1, hp2, hrt]
            · simp [runReview, sess_bind_eq, Sess.bind_ok, Sess.bind_error, callRemote,
                sessAttempt, Sess.pure, hp1, hp2, hrt]
      · rcases sr with sm | su
        · rcases hrt : cfg.retryOnError with _ | _
          · rcases per with pm | pu
            · simp [runReview, sess_bind_eq, Sess.bind_ok, Sess.bind_error, callRemote,
                sessAttempt, Sess.pure, hp1, hrt] at hok
            · rcases srf with fm | fu
              · simp [runReview, sess_bind_eq, Sess.bind_ok, Sess.bind_error,
                  callRemote, sessAttempt, Sess.pure, hp1, hrt] at hok
              · simp [runReview, sess_bind_eq, Sess.bind_ok, Sess.bind_error,
                  callRemote, sessAttempt, Sess.pure, hp1, hrt]
          · rcases hp2 : performReview cfg a2 with ⟨t2, r2⟩
            rcases r2 with m2 | o2
            · rcases per with pm | pu
              · simp [runReview, sess_bind_eq, Sess.bind_ok, Sess.bind_error,
                  callRemote, sessAttempt, Sess.pure, hp1, hp2, hrt] at hok
              · rcases srf with fm | fu
                · simp [runReview, sess_bind_eq, Sess.bind_ok, Sess.bind_error,
                    callRemote, sessAttempt, Sess.pure, hp1, hp2, hrt] at hok
                · simp [runReview, sess_bind_eq, Sess.bind_ok, Sess.bind_error,
                    callRemote, sessAttempt, Sess.pure, hp1, hp2, hrt]
            · rcases srr with rm | ru
              · rcases per with pm | pu
                · simp [runReview, sess_bind_eq, Sess.bind_ok, Sess.bind_error,
                    callRemote, sessAttempt, Sess.pure, hp1, hp2, hrt] at hok
                · rcases srf with fm | fu
                  · simp [runReview, sess_bind_eq, Sess.bind_ok, Sess.bind_error,
                      callRemote, sessAttempt, Sess.pure, hp1, hp2, hrt] at hok
                  · simp [runReview, sess_bind_eq, Sess.bind_ok, Sess.bind_error,
                      callRemote, sessAttempt, Sess.pure, hp1, hp2, hrt]
              · simp [runReview, sess_bind_eq, Sess.bind_ok, Sess.bind_error,
                  callRemote, sessAttempt, Sess.pure, hp1, hp2, hrt]
        · simp [runReview, sess_bind_eq, Sess.bind_ok, Sess.bind_error, callRemote,
            sessAttempt, Sess.pure, hp1]
  · intro cfg env m1 m2 hrt hf hsp h1 h2 hper hsrf
    obtain ⟨fetchPR, setPendingRes, a1, a2, sr, srr, srf, per⟩ := env
    simp only at hf hsp h1 h2 hper hsrf
    subst hf
    subst hsp
    subst hper
    subst hsrf
    rcases hp1 : performReview cfg a1 with ⟨t1, r1⟩
    rw [hp1] at h1
    simp only at h1
    subst h1
    rcases hp2 : performReview cfg a2 with ⟨t2, r2⟩
    rw [hp2] at h2
    simp only at h2
    subst h2
    refine ⟨?_, ?_, ?_⟩ <;>
      simp [runReview, sess_bind_eq, Sess.bind_ok, Sess.bind_error, callRemote,
        sessAttempt, Sess.pure, hp1, hp2, hrt]

/-- C5 witness: both attempts fail, the session still flips the label. -/
theorem runReview_label_flip_witness :
    Ev.setLabels false
      ∈ (runReview { maxFilesThreshold := 100, retryOnError := true }
          (mkSessionEnv failAttemptEnv failAttemptEnv)).1 :=
  (runReview_label_flip.2.1 { maxFilesThreshold := 100, retryOnError := true }
    (mkSessionEnv failAttemptEnv failAttemptEnv) "engine failed" "engine failed"
    (by decide) (by rfl) (by rfl) (by rfl) (by rfl) (by rfl) (by rfl)).2.2

/- ### C6: ordering of remote mutations -/

theorem performReview_trace_split (cfg : ReviewerConfig) (env : AttemptEnv) :
    (∀ e ∈ (performReview cfg env).1, isResolveEv e = false)
    ∨ ∃ pre rs post, (performReview cfg env).1 = pre ++ rs ++ post
        ∧ (∀ e ∈ pre, isResolveEv e = false ∧ isCreateEv e = false ∧ isSubmitEv e = false)
        ∧ (∀ e ∈ rs, isCreateEv e = false ∧ isSubmitEv e = false)
        ∧ (∀ e ∈ post, isResolveEv e = false) := by
  obtain ⟨avail, changed, nonCode, clone, engine, existing, resolveRes, createRes,
    dismissRes, submitRes⟩ := env
  obtain ⟨esucc, eres, eerr, eraw⟩ := engine
  cases avail with
  | false =>
    left
    intro e he
    simp [performReview, sess_bind_eq, Sess.bind_ok, Sess.bind_error, callRemote,
      sessFail] at he
    subst he
    rfl
  | true =>
    rcases changed with msg | n
    · left
      intro e he
      simp [performReview, sess_bind_eq, Sess.bind_ok, Sess.bind_error, callRemote] at he
      rcases he with rfl | rfl <;> rfl
    · by_cases hn : n > cfg.maxFilesThreshold
      · left
        rcases submitRes with sm | su <;>
          (intro e he;
           simp [performReview, sess_bind_eq, Sess.bind_ok, Sess.bind_error, callRemote,
             hn, Sess.pure] at he;
           rcases he with rfl | rfl | rfl <;> rfl)
      · rcases nonCode with msg | nc
        · left
          intro e he
          simp [performReview, sess_bind_eq, Sess.bind_ok, Sess.bind_error, callRemote,
            hn] at he
          rcases he with rfl | rfl | rfl <;> rfl
        · cases nc with
          | true =>
            left
            rcases submitRes with sm | su <;>
              (intro e he;
               simp [performReview, sess_bind_eq, Sess.bind_ok, Sess.bind_error,
                 callRemote, hn, Sess.pure] at he;
               rcases he with rfl | rfl | rfl | rfl <;> rfl)
          | false =>
            rcases clone with msg | u
            · left
              intro e he
              simp [performReview, sess_bind_eq, Sess.bind_ok, Sess.bind_error,
                callRemote, hn, withWorkdirCleanup] at he
              rcases he with rfl | rfl | rfl | rfl | rfl <;> rfl
            · cases esucc with
              | false =>
                left
                intro e he
                simp [performReview, sess_bind_eq, Sess.bind_ok, Sess.bind_error,
                  callRemote, emitEv, hn, withWorkdirCleanup, sessFail] at he
                rcases he with rfl | rfl | rfl | rfl | rfl | rfl <;> rfl
              | true =>
                rcases eres with _ | result
                · left
                  intro e he
                  simp [performReview, sess_bind_eq, Sess.bind_ok, Sess.bind_error,
                    callRemote, emitEv, hn, withWorkdirCleanup, sessFail] at he
                  rcases he with rfl | rfl | rfl | rfl | rfl | rfl <;> rfl
                · by_cases hst : result.status == ReviewStatus.skipped
                  · left
                    rcases submitRes with sm | su <;>
                      (intro e he;
                       simp [performReview, sess_bind_eq, Sess.bind_ok, Sess.bind_error,
                         callRemote, emitEv, hn, hst, withWorkdirCleanup,
                         Sess.pure] at he;
                       rcases he with rfl | rfl | rfl | rfl | rfl | rfl | rfl <;> rfl)
                  · rcases existing with msg | excs
                    · left
                      intro e he
                      simp [performReview, sess_bind_eq, Sess.bind_ok, Sess.bind_error,
                        callRemote, emitEv, hn, hst, withWorkdirCleanup] at he
                      rcases he with rfl | rfl | rfl | rfl | rfl | rfl | rfl <;> rfl
                    · rcases hcr : callEach Ev.resolveThread resolveRes
                          (reconcileFindings result.findings excs).fixedCommentIds
                          with ⟨rtr, rres⟩
                      have hrev1 := callEach_events Ev.resolveThread resolveRes
                        (reconcileFindings result.findings excs).fixedCommentIds
                      rw [hcr] at hrev1
                      right
                      rcases rres with rm | ru
                      · refine ⟨[Ev.cliCheck true, Ev.getChangedFiles, Ev.checkNonCode,
                          Ev.cloneRepo, Ev.runEngine, Ev.getExisting], rtr,
                          [Ev.removeWorkdir], ?_, ?_, ?_, ?_⟩
                        · simp [performReview, sess_bind_eq, Sess.bind_ok,
                            Sess.bind_error, callRemote, emitEv, hn, hst,
                            withWorkdirCleanup, hcr]
                        · simp [isResolveEv, isCreateEv, isSubmitEv]
                        · intro e he
                          rcases hrev1 e he with ⟨x, _, rfl⟩
                          exact ⟨rfl, rfl⟩
                        · simp [isResolveEv]
                      · rcases hcc : callEach (fun f => Ev.createComment f.hash)
                            (fun f => createRes f.hash)
                            (sortFindingsBySeverity
                              (reconcileFindings result.findings excs).newFindings)
                            with ⟨ctr, cres⟩
                        have hcrev := callEach_events (fun f => Ev.createComment f.hash)
                          (fun f => createRes f.hash)
                          (sortFindingsBySeverity
                            (reconcileFindings result.findings excs).newFindings)
                        rw [hcc] at hcrev
                        have hpost : ∀ tail : List Ev, (∀ e ∈ tail, isResolveEv e = false) →
                            ∀ e ∈ ctr ++ tail, isResolveEv e = false := by
                          intro tail htail e he
                          rcases List.mem_append.mp he with he | he
                          · rcases hcrev e he with ⟨x, _, rfl⟩
                            rfl
                          · exact htail e he
                        rcases cres with cm | cu
                        · refine ⟨[Ev.cliCheck true, Ev.getChangedFiles, Ev.checkNonCode,
                            Ev.cloneRepo, Ev.runEngine, Ev.getExisting], rtr,
                            ctr ++ [Ev.removeWorkdir], ?_, ?_, ?_, ?_⟩
                          · simp [performReview, sess_bind_eq, Sess.bind_ok,
                              Sess.bind_error, callRemote, emitEv, hn, hst,
                              withWorkdirCleanup, hcr, hcc]
                          · simp [isResolveEv, isCreateEv, isSubmitEv]
                          · intro e he
                            rcases hrev1 e he with ⟨x, _, rfl⟩
                            exact ⟨rfl, rfl⟩
                          · exact hpost _ (by simp [isResolveEv])
                        · by_cases hdm : shouldDismissPreviousReview result.findings = true
                          · rcases dismissRes with dm | du
                            · refine ⟨[Ev.cliCheck true, Ev.getChangedFiles,
                                Ev.checkNonCode, Ev.cloneRepo, Ev.runEngine,
                                Ev.getExisting], rtr,
                                ctr ++ [Ev.dismissStale, Ev.removeWorkdir], ?_, ?_, ?_, ?_⟩
                              · simp [performReview, sess_bind_eq, Sess.bind_ok,
                                  Sess.bind_error, callRemote, emitEv, hn, hst,
                                  withWorkdirCleanup, hcr, hcc, hdm]
                              · simp [isResolveEv, isCreateEv, isSubmitEv]
                              · intro e he
                                rcases hrev1 e he with ⟨x, _, rfl⟩
                                exact ⟨rfl, rfl⟩
                              · exact hpost _ (by simp [isResolveEv])
                            · rcases submitRes with sm | su
                              · refine ⟨[Ev.cliCheck true, Ev.getChangedFiles,
                                  Ev.checkNonCode, Ev.cloneRepo, Ev.runEngine,
                                  Ev.getExisting], rtr,
                                  ctr ++ [Ev.dismissStale,
                                    Ev.submitRev (determineReviewAction result.findings)
                                      true, Ev.removeWorkdir], ?_, ?_, ?_, ?_⟩
                                · simp [performReview, sess_bind_eq, Sess.bind_ok,
                                    Sess.bind_error, callRemote, emitEv, hn, hst,
                                    withWorkdirCleanup, hcr, hcc, hdm, Sess.pure]
                                · simp [isResolveEv, isCreateEv, isSubmitEv]
                                · intro e he
                                  rcases hrev1 e he with ⟨x, _, rfl⟩
                                  exact ⟨rfl, rfl⟩
                                · exact hpost _ (by simp [isResolveEv])
                              · refine ⟨[Ev.cliCheck true, Ev.getChangedFiles,
                                  Ev.checkNonCode, Ev.cloneRepo, Ev.runEngine,
                                  Ev.getExisting], rtr,
                                  ctr ++ [Ev.dismissStale,
                                    Ev.submitRev (determineReviewAction result.findings)
                                      true, Ev.removeWorkdir], ?_, ?_, ?_, ?_⟩
                                · simp [performReview, sess_bind_eq, Sess.bind_ok,
                                    Sess.bind_error, callRemote, emitEv, hn, hst,
                                    withWorkdirCleanup, hcr, hcc, hdm, Sess.pure]
                                · simp [isResolveEv, isCreateEv, isSubmitEv]
                                · intro e he
                                  rcases hrev1 e he with ⟨x, _, rfl⟩
                                  exact ⟨rfl, rfl⟩
                                · exact hpost _ (by simp [isResolveEv])
                          · rcases submitRes with sm | su
                            · refine ⟨[Ev.cliCheck true, Ev.getChangedFiles,
                                Ev.checkNonCode, Ev.cloneRepo, Ev.runEngine,
                                Ev.getExisting], rtr,
                                ctr ++ [Ev.submitRev
                                  (determineReviewAction result.findings) true,
                                  Ev.removeWorkdir], ?_, ?_, ?_, ?_⟩
                              · simp [performReview, sess_bind_eq, Sess.bind_ok,
                                  Sess.bind_error, callRemote, emitEv, hn, hst,
                                  withWorkdirCleanup, hcr, hcc, hdm, Sess.pure]
                              · simp [isResolveEv, isCreateEv, isSubmitEv]
                              · intro e he
                                rcases hrev1 e he with ⟨x, _, rfl⟩
                                exact ⟨rfl, rfl⟩
                              · exact hpost _ (by simp [isResolveEv])
                            · refine ⟨[Ev.cliCheck true, Ev.getChangedFiles,
                                Ev.checkNonCode, Ev.cloneRepo, Ev.runEngine,
                                Ev.getExisting], rtr,
                                ctr ++ [Ev.submitRev
                                  (determineReviewAction result.findings) true,
                                  Ev.removeWorkdir], ?_, ?_, ?_, ?_⟩
                              · simp [performReview, sess_bind_eq, Sess.bind_ok,
                                  Sess.bind_error, callRemote, emitEv, hn, hst,
                                  withWorkdirCleanup, hcr, hcc, hdm, Sess.pure]
                              · simp [isResolveEv, isCreateEv, isSubmitEv]
                              · intro e he
                                rcases hrev1 e he with ⟨x, _, rfl⟩
                                exact ⟨rfl, rfl⟩
                              · exact hpost _ (by simp [isResolveEv])

theorem precedesIdx_of_split_eq (P Q : Ev → Bool) (a b tr : List Ev)
    (heq : tr = a ++ b) (ha : ∀ e ∈ a, Q e = false) (hb : ∀ e ∈ b, P e = false) :
    PrecedesIdx P Q tr := by
  rw [heq]
  exact precedesIdx_of_split P Q a b ha hb

theorem attempt_resolve_before_create (cfg : ReviewerConfig) (env : AttemptEnv) :
    PrecedesIdx isResolveEv isCreateEv (performReview cfg env).1 := by
  rcases performReview_trace_split cfg env with h | ⟨pre, rs, post, htr, hpre, hrs, hpost⟩
  · exact precedesIdx_of_noP _ _ _ h
  · apply precedesIdx_of_split_eq _ _ (pre ++ rs) post _
      (by rw [htr, List.append_assoc])
    · intro e he
      rcases List.mem_append.mp he with he | he
      · exact (hpre e he).2.1
      · exact (hrs e he).1
    · exact hpost

theorem attempt_resolve_before_submit (cfg : ReviewerConfig) (env : AttemptEnv) :
    PrecedesIdx isResolveEv isSubmitEv (performReview cfg env).1 := by
  rcases performReview_trace_split cfg env with h | ⟨pre, rs, post, htr, hpre, hrs, hpost⟩
  · exact precedesIdx_of_noP _ _ _ h
  · apply precedesIdx_of_split_eq _ _ (pre ++ rs) post _
      (by rw [htr, List.append_assoc])
    · intro e he
      rcases List.mem_append.mp he with he | he
      · exact (hpre e he).2.2
      · exact (hrs e he).2
    · exact hpost

theorem sessAttempt_fst (s : Sess α) : (sessAttempt s).1 = s.1 := rfl

theorem performReview_no_pending_label (cfg : ReviewerConfig) (env : AttemptEnv) :
    ∀ e ∈ (performReview cfg env).1, isSetLabelsEv true e = false :=
  performReview_trace_forall cfg env (fun _ => rfl) rfl rfl rfl rfl rfl (fun _ => rfl)
    (fun _ => rfl) rfl (fun _ _ => rfl) rfl


theorem runReview_head_shape (cfg : ReviewerConfig) (sp : Except String Unit)
    (a1 a2 : AttemptEnv) (sr srr srf per : Except String Unit) :
    ∃ rest, (runReview cfg
        { fetchPR := Except.ok (), setPendingRes := sp, attempt1 := a1, attempt2 := a2,
          setReviewedRes := sr, setReviewedRetryRes := srr, setReviewedFailRes := srf,
          postErrorRes := per }).1
      = Ev.fetchPRInfo :: Ev.setLabels true :: rest
      ∧ ∀ e ∈ rest, isSetLabelsEv true e = false := by
  rcases sp with sm | su
  · refine ⟨[], ?_, ?_⟩
    · simp [runReview, sess_bind_eq, Sess.bind_ok, Sess.bind_error, callRemote,
        sessAttempt, Sess.pure]
    · intro e he
      cases he
  · rcases hp1 : performReview cfg a1 with ⟨t1, r1⟩
    have hat1 := performReview_no_pending_label cfg a1
    rw [hp1] at hat1
    rcases r1 with m1 | o1
    · rcases hrt : cfg.retryOnError with _ | _
      · rcases per with pm | pu
        · refine ⟨t1 ++ [Ev.postErrorComment], ?_, ?_⟩
          · simp [runReview, sess_bind_eq, Sess.bind_ok, Sess.bind_error, callRemote, sessAttempt, Sess.pure, hp1, hrt]
          · simp only [List.forall_mem_append, List.forall_mem_cons,
              List.forall_mem_nil, and_true]
            repeat' constructor
            all_goals first
              | exact hat1
              | rfl
              | (intro x hx; cases hx)
        · rcases srf with fm | fu
          · refine ⟨t1 ++ [Ev.postErrorComment, Ev.setLabels false], ?_, ?_⟩
            · simp [runReview, sess_bind_eq, Sess.bind_ok, Sess.bind_error, callRemote, sessAttempt, Sess.pure, hp1, hrt]
            · simp only [List.forall_mem_append, List.forall_mem_cons,
                List.forall_mem_nil, and_true]
              repeat' constructor
              all_goals first
                | exact hat1
                | rfl
                | (intro x hx; cases hx)
          · refine ⟨t1 ++ [Ev.postErrorComment, Ev.setLabels false], ?_, ?_⟩
            · simp [runReview, sess_bind_eq, Sess.bind_ok, Sess.bind_error, callRemote, sessAttempt, Sess.pure, hp1, hrt]
            · simp only [List.forall_mem_append, List.forall_mem_cons,
                List.forall_mem_nil, and_true]
              repeat' constructor
              all_goals first
                | exact hat1
                | rfl
                | (intro x hx; cases hx)
      · rcases hp2 : performReview cfg a2 with ⟨t2, r2⟩
        have hat2 := performReview_no_pending_label cfg a2
        rw [hp2] at hat2
        rcases r2 with m2 | o2
        · rcases per with pm | pu
          · refine ⟨t1 ++ t2 ++ [Ev.postErrorComment], ?_, ?_⟩
            · simp [runReview, sess_bind_eq, Sess.bind_ok, Sess.bind_error, callRemote, sessAttempt, Sess.pure, hp1, hp2, hrt]
            · simp only [List.forall_mem_append, List.forall_mem_cons,
                List.forall_mem_nil, and_true]
              repeat' constructor
              all_goals first
                | exact hat1
                | exact hat2
                | rfl
                | (intro x hx; cases hx)
          · rcases srf with fm | fu
            · refine ⟨t1 ++ t2 ++ [Ev.postErrorComment, Ev.setLabels false], ?_, ?_⟩
              · simp [runReview, sess_bind_eq, Sess.bind_ok, Sess.bind_error, callRemote, sessAttempt, Sess.pure, hp1, hp2, hrt]
              · simp only [List.forall_mem_append, List.forall_mem_cons,
                  List.forall_mem_nil, and_true]
                repeat' constructor
                all_goals first
                  | exact hat1
                  | exact hat2
                  | rfl
                  | (intro x hx; cases hx)
            · refine ⟨t1 ++ t2 ++ [Ev.postErrorComment, Ev.setLabels false], ?_, ?_⟩
              · simp [runReview, sess_bind_eq, Sess.bind_ok, Sess.bind_error, callRemote, sessAttempt, Sess.pure, hp1, hp2, hrt]
              · simp only [List.forall_mem_append, List.forall_mem_cons,
                  List.forall_mem_nil, and_true]
                repeat' constructor
                all_goals first
                  | exact hat1
                  | exact hat2
                  | rfl
                  | (intro x hx; cases hx)
        · rcases srr with rm | ru
          · rcases per with pm | pu
            · refine ⟨t1 ++ t2 ++ [Ev.setLabels false, Ev.postErrorComment], ?_, ?_⟩
              · simp [runReview, sess_bind_eq, Sess.bind_ok, Sess.bind_error, callRemote, sessAttempt, Sess.pure, hp1, hp2, hrt]
              · simp only [List.forall_mem_append, List.forall_mem_cons,
                  List.forall_mem_nil, and_true]
                repeat' constructor
                all_goals first
                  | exact hat1
                  | exact hat2
                  | rfl
                  | (intro x hx; cases hx)
            · rcases srf with fm | fu
              · refine ⟨t1 ++ t2 ++ [Ev.setLabels false, Ev.postErrorComment, Ev.setLabels false], ?_, ?_⟩
                · simp [runReview, sess_bind_eq, Sess.bind_ok, Sess.bind_error, callRemote, sessAttempt, Sess.pure, hp1, hp2, hrt]
                · simp only [List.forall_mem_append, List.forall_mem_cons,
                    List.forall_mem_nil, and_true]
                  repeat' constructor
                  all_goals first
                    | exact hat1
                    | exact hat2
                    | rfl
                    | (intro x hx; cases hx)
              · refine ⟨t1 ++ t2 ++ [Ev.setLabels false, Ev.postErrorComment, Ev.setLabels false], ?_, ?_⟩
                · simp [runReview, sess_bind_eq, Sess.bind_ok, Sess.bind_error, callRemote, sessAttempt, Sess.pure, hp1, hp2, hrt]
                · simp only [List.forall_mem_append, List.forall_mem_cons,
                    List.forall_mem_nil, and_true]
                  repeat' constructor
                  all_goals first
                    | exact hat1
                    | exact hat2
                    | rfl
                    | (intro x hx; cases hx)
          · refine ⟨t1 ++ t2 ++ [Ev.setLabels false], ?_, ?_⟩
            · simp [runReview, sess_bind_eq, Sess.bind_ok, Sess.bind_error, callRemote, sessAttempt, Sess.pure, hp1, hp2, hrt]
            · simp only [List.forall_mem_append, List.forall_mem_cons,
                List.forall_mem_nil, and_true]
              repeat' constructor
              all_goals first
                | exact hat1
                | exact hat2
                | rfl
                | (intro x hx; cases hx)
    · rcases sr with sm | su
      · rcases hrt : cfg.retryOnError with _ | _
        · rcases per with pm | pu
          · refine ⟨t1 ++ [Ev.setLabels false, Ev.postErrorComment], ?_, ?_⟩
            · simp [runReview, sess_bind_eq, Sess.bind_ok, Sess.bind_error, callRemote, sessAttempt, Sess.pure, hp1, hrt]
            · simp only [List.forall_mem_append, List.forall_mem_cons,
                List.forall_mem_nil, and_true]
              repeat' constructor
              all_goals first
                | exact hat1
                | rfl
                | (intro x hx; cases hx)
          · rcases srf with fm | fu
            · refine ⟨t1 ++ [Ev.setLabels false, Ev.postErrorComment, Ev.setLabels false], ?_, ?_⟩
              · simp [runReview, sess_bind_eq, Sess.bind_ok, Sess.bind_error, callRemote, sessAttempt, Sess.pure, hp1, hrt]
              · simp only [List.forall_mem_append, List.forall_mem_cons,
                  List.forall_mem_nil, and_true]
                repeat' constructor
                all_goals first
                  | exact hat1
                  | rfl
                  | (intro x hx; cases hx)
            · refine ⟨t1 ++ [Ev.setLabels false, Ev.postErrorComment, Ev.setLabels false], ?_, ?_⟩
              · simp [runReview, sess_bind_eq, Sess.bind_ok, Sess.bind_error, callRemote, sessAttempt, Sess.pure, hp1, hrt]
              · simp only [List.forall_mem_append, List.forall_mem_cons,
                  List.forall_mem_nil, and_true]
                repeat' constructor
                all_goals first
                  | exact hat1
                  | rfl
                  | (intro x hx; cases hx)
        · rcases hp2 : performReview cfg a2 with ⟨t2, r2⟩
          have hat2 := performReview_no_pending_label cfg a2
          rw [hp2] at hat2
          rcases r2 with m2 | o2
          · rcases per with pm | pu
            · refine ⟨t1 ++ [Ev.setLabels false] ++ t2 ++ [Ev.postErrorComment], ?_, ?_⟩
              · simp [runReview, sess_bind_eq, Sess.bind_ok, Sess.bind_error, callRemote, sessAttempt, Sess.pure, hp1, hp2, hrt]
              · simp only [List.forall_mem_append, List.forall_mem_cons,
                  List.forall_mem_nil, and_true]
                repeat' constructor
                all_goals first
                  | exact hat1
                  | exact hat2
                  | rfl
                  | (intro x hx; cases hx)
            · rcases srf with fm | fu
              · refine ⟨t1 ++ [Ev.setLabels false] ++ t2 ++ [Ev.postErrorComment, Ev.setLabels false], ?_, ?_⟩
                · simp [runReview, sess_bind_eq, Sess.bind_ok, Sess.bind_error, callRemote, sessAttempt, Sess.pure, hp1, hp2, hrt]
                · simp only [List.forall_mem_append, List.forall_mem_cons,
                    List.forall_mem_nil, and_true]
                  repeat' constructor
                  all_goals first
                    | exact hat1
                    | exact hat2
                    | rfl
                    | (intro x hx; cases hx)
              · refine ⟨t1 ++ [Ev.setLabels false] ++ t2 ++ [Ev.postErrorComment, Ev.setLabels false], ?_, ?_⟩
                · simp [runReview, sess_bind_eq, Sess.bind_ok, Sess.bind_error, callRemote, sessAttempt, Sess.pure, hp1, hp2, hrt]
                · simp only [List.forall_mem_append, List.forall_mem_cons,
                    List.forall_mem_nil, and_true]
                  repeat' constructor
                  all_goals first
                    | exact hat1
                    | exact hat2
                    | rfl
                    | (intro x hx; cases hx)
          · rcases srr with rm | ru
            · rcases per with pm | pu
              · refine ⟨t1 ++ [Ev.setLabels false] ++ t2 ++ [Ev.setLabels false, Ev.postErrorComment], ?_, ?_⟩
                · simp [runReview, sess_bind_eq, Sess.bind_ok, Sess.bind_error, callRemote, sessAttempt, Sess.pure, hp1, hp2, hrt]
                · simp only [List.forall_mem_append, List.forall_mem_cons,
                    List.forall_mem_nil, and_true]
                  repeat' constructor
                  all_goals first
                    | exact hat1
                    | exact hat2
                    | rfl
                    | (intro x hx; cases hx)
              · rcases srf with fm | fu
                · refine ⟨t1 ++ [Ev.setLabels false] ++ t2 ++ [Ev.setLabels false, Ev.postErrorComment, Ev.setLabels false], ?_, ?_⟩
                  · simp [runReview, sess_bind_eq, Sess.bind_ok, Sess.bind_error, callRemote, sessAttempt, Sess.pure, hp1, hp2, hrt]
                  · simp only [List.forall_mem_append, List.forall_mem_cons,
                      List.forall_mem_nil, and_true]
                    repeat' constructor
                    all_goals first
                      | exact hat1
                      | exact hat2
                      | rfl
                      | (intro x hx; cases hx)
                · refine ⟨t1 ++ [Ev.setLabels false] ++ t2 ++ [Ev.setLabels false, Ev.postErrorComment, Ev.setLabels false], ?_, ?_⟩
                  · simp [runReview, sess_bind_eq, Sess.bind_ok, Sess.bind_error, callRemote, sessAttempt, Sess.pure, hp1, hp2, hrt]
                  · simp only [List.forall_mem_append, List.forall_mem_cons,
                      List.forall_mem_nil, and_true]
                    repeat' constructor
                    all_goals first
                      | exact hat1
                      | exact hat2
                      | rfl
                      | (intro x hx; cases hx)
            · refine ⟨t1 ++ [Ev.setLabels false] ++ t2 ++ [Ev.setLabels false], ?_, ?_⟩
              · simp [runReview, sess_bind_eq, Sess.bind_ok, Sess.bind_error, callRemote, sessAttempt, Sess.pure, hp1, hp2, hrt]
              · simp only [List.forall_mem_append, List.forall_mem_cons,
                  List.forall_mem_nil, and_true]
                repeat' constructor
                all_goals first
                  | exact hat1
                  | exact hat2
                  | rfl
                  | (intro x hx; cases hx)
      · refine ⟨t1 ++ [Ev.setLabels false], ?_, ?_⟩
        · simp [runReview, sess_bind_eq, Sess.bind_ok, Sess.bind_error, callRemote, sessAttempt, Sess.pure, hp1]
        · simp only [List.forall_mem_append, List.forall_mem_cons,
            List.forall_mem_nil, and_true]
          repeat' constructor
          all_goals first
            | exact hat1
            | rfl
            | (intro x hx; cases hx)

theorem runReview_pending_first (cfg : ReviewerConfig) (sp : Except String Unit)
    (a1 a2 : AttemptEnv) (sr srr srf per : Except String Unit) :
    PrecedesIdx (isSetLabelsEv true) isPrecheckEv
      (runReview cfg
        { fetchPR := Except.ok (), setPendingRes := sp, attempt1 := a1, attempt2 := a2,
          setReviewedRes := sr, setReviewedRetryRes := srr, setReviewedFailRes := srf,
          postErrorRes := per }).1 := by
  obtain ⟨rest, heq, hrest⟩ := runReview_head_shape cfg sp a1 a2 sr srr srf per
  apply precedesIdx_of_split_eq (isSetLabelsEv true) isPrecheckEv
    [Ev.fetchPRInfo, Ev.setLabels true] rest _ heq
  · intro e he
    simp only [List.mem_cons, List.not_mem_nil, or_false] at he
    rcases he with h | h <;> (subst h; rfl)
  · exact hrest

theorem runReview_final_flip (cfg : ReviewerConfig) (env : SessionEnv)
    (outcome : ReviewOutcome)
    (hok : (runReview cfg env).2 = Except.ok outcome)
    (hpr : env.fetchPR = Except.ok ()) :
    ∃ a, (runReview cfg env).1 = a ++ [Ev.setLabels false] := by
  obtain ⟨fp, sp, a1, a2, sr, srr, srf, per⟩ := env
  simp only at hpr
  subst hpr
  rcases sp with sm | su
  · simp [runReview, sess_bind_eq, Sess.bind_ok, Sess.bind_error, callRemote,
      sessAttempt, Sess.pure] at hok
  · rcases hp1 : performReview cfg a1 with ⟨t1, r1⟩
    rcases r1 with m1 | o1
    · rcases hrt : cfg.retryOnError with _ | _
      · rcases per with pm | pu
        · simp [runReview, sess_bind_eq, Sess.bind_ok, Sess.bind_error, callRemote, sessAttempt, Sess.pure, hp1, hrt] at hok
        · rcases srf with fm | fu
          · simp [runReview, sess_bind_eq, Sess.bind_ok, Sess.bind_error, callRemote, sessAttempt, Sess.pure, hp1, hrt] at hok
          · refine ⟨(Ev.fetchPRInfo :: Ev.setLabels true :: (t1 ++ [Ev.postErrorComment])), ?_⟩
            simp [runReview, sess_bind_eq, Sess.bind_ok, Sess.bind_error, callRemote, sessAttempt, Sess.pure, hp1, hrt]
      · rcases hp2 : performReview cfg a2 with ⟨t2, r2⟩
        rcases r2 with m2 | o2
        · rcases per with pm | pu
          · simp [runReview, sess_bind_eq, Sess.bind_ok, Sess.bind_error, callRemote, sessAttempt, Sess.pure, hp1, hp2, hrt] at hok
          · rcases srf with fm | fu
            · simp [runReview, sess_bind_eq, Sess.bind_ok, Sess.bind_error, callRemote, sessAttempt, Sess.pure, hp1, hp2, hrt] at hok
            · refine ⟨(Ev.fetchPRInfo :: Ev.setLabels true :: (t1 ++ t2 ++ [Ev.postErrorComment])), ?_⟩
              simp [runReview, sess_bind_eq, Sess.bind_ok, Sess.bind_error, callRemote, sessAttempt, Sess.pure, hp1, hp2, hrt]
        · rcases srr with rm | ru
          · rcases per with pm | pu
            · simp [runReview, sess_bind_eq, Sess.bind_ok, Sess.bind_error, callRemote, sessAttempt, Sess.pure, hp1, hp2, hrt] at hok
            · rcases srf with fm | fu
              · simp [runReview, sess_bind_eq, Sess.bind_ok, Sess.bind_error, callRemote, sessAttempt, Sess.pure, hp1, hp2, hrt] at hok
              · refine ⟨(Ev.fetchPRInfo :: Ev.setLabels true :: (t1 ++ t2 ++ [Ev.setLabels false, Ev.postErrorComment])), ?_⟩
                simp [runReview, sess_bind_eq, Sess.bind_ok, Sess.bind_error, callRemote, sessAttempt, Sess.pure, hp1, hp2, hrt]
          · refine ⟨(Ev.fetchPRInfo :: Ev.setLabels true :: (t1 ++ t2)), ?_⟩
            simp [runReview, sess_bind_eq, Sess.bind_ok, Sess.bind_error, callRemote, sessAttempt, Sess.pure, hp1, hp2, hrt]
    · rcases sr with sm | su2
      · rcases hrt : cfg.retryOnError with _ | _
        · rcases per with pm | pu
          · simp [runReview, sess_bind_eq, Sess.bind_ok, Sess.bind_error, callRemote, sessAttempt, Sess.pure, hp1, hrt] at hok
          · rcases srf with fm | fu
            · simp [runReview, sess_bind_eq, Sess.bind_ok, Sess.bind_error, callRemote, sessAttempt, Sess.pure, hp1, hrt] at hok
            · refine ⟨(Ev.fetchPRInfo :: Ev.setLabels true :: (t1 ++ [Ev.setLabels false, Ev.postErrorComment])), ?_⟩
              simp [runReview, sess_bind_eq, Sess.bind_ok, Sess.bind_error, callRemote, sessAttempt, Sess.pure, hp1, hrt]
        · rcases hp2 : performReview cfg a2 with ⟨t2, r2⟩
          rcases r2 with m2 | o2
          · rcases per with pm | pu
            · simp [runReview, sess_bind_eq, Sess.bind_ok, Sess.bind_error, callRemote, sessAttempt, Sess.pure, hp1, hp2, hrt] at hok
            · rcases srf with fm | fu
              · simp [runReview, sess_bind_eq, Sess.bind_ok, Sess.bind_error, callRemote, sessAttempt, Sess.pure, hp1, hp2, hrt] at hok
              · refine ⟨(Ev.fetchPRInfo :: Ev.setLabels true :: (t1 ++ [Ev.setLabels false] ++ t2 ++ [Ev.postErrorComment])), ?_⟩
                simp [runReview, sess_bind_eq, Sess.bind_ok, Sess.bind_error, callRemote, sessAttempt, Sess.pure, hp1, hp2, hrt]
          · rcases srr with rm | ru
            · rcases per with pm | pu
              · simp [runReview, sess_bind_eq, Sess.bind_ok, Sess.bind_error, callRemote, sessAttempt, Sess.pure, hp1, hp2, hrt] at hok
              · rcases srf with fm | fu
                · simp [runReview, sess_bind_eq, Sess.bind_ok, Sess.bind_error, callRemote, sessAttempt, Sess.pure, hp1, hp2, hrt] at hok
                · refine ⟨(Ev.fetchPRInfo :: Ev.setLabels true :: (t1 ++ [Ev.setLabels false] ++ t2 ++ [Ev.setLabels false, Ev.postErrorComment])), ?_⟩
                  simp [runReview, sess_bind_eq, Sess.bind_ok, Sess.bind_error, callRemote, sessAttempt, Sess.pure, hp1, hp2, hrt]
            · refine ⟨(Ev.fetchPRInfo :: Ev.setLabels true :: (t1 ++ [Ev.setLabels false] ++ t2)), ?_⟩
              simp [runReview, sess_bind_eq, Sess.bind_ok, Sess.bind_error, callRemote, sessAttempt, Sess.pure, hp1, hp2, hrt]
      · refine ⟨(Ev.fetchPRInfo :: Ev.setLabels true :: t1), ?_⟩
        simp [runReview, sess_bind_eq, Sess.bind_ok, Sess.bind_error, callRemote, sessAttempt, Sess.pure, hp1]

/-- C6: within one session the remote mutations are sequentially ordered:
the pending-label call precedes the precheck fetches; thread resolution
precedes the creation of new review comments (the code resolves fixed
threads first, the reverse of the claimed comment-then-resolve order);
thread resolution precedes the top-level review submission; and on every
session that returns an outcome after a successful PR fetch the final
remote action is the flip to the reviewed label, so every submission
precedes it. -/
theorem runReview_mutation_order :
    (∀ (cfg : ReviewerConfig) (env : SessionEnv), env.fetchPR = Except.ok () →
        PrecedesIdx (isSetLabelsEv true) isPrecheckEv (runReview cfg env).1)
    ∧ (∀ (cfg : ReviewerConfig) (env : AttemptEnv),
        PrecedesIdx isResolveEv isCreateEv (performReview cfg env).1)
    ∧ (∀ (cfg : ReviewerConfig) (env : AttemptEnv),
        PrecedesIdx isResolveEv isSubmitEv (performReview cfg env).1)
    ∧ (∀ (cfg : ReviewerConfig) (env : SessionEnv) (outcome : ReviewOutcome),
        (runReview cfg env).2 = Except.ok outcome → env.fetchPR = Except.ok () →
        ∃ a, (runReview cfg env).1 = a ++ [Ev.setLabels false]) := by
  refine ⟨?_, attempt_resolve_before_create, attempt_resolve_before_submit,
    runReview_final_flip⟩
  intro cfg env hpr
  obtain ⟨fp, sp, a1, a2, sr, srr, srf, per⟩ := env
  simp only at hpr
  subst hpr
  exact runReview_pending_first cfg sp a1 a2 sr srr srf per

theorem runReview_mutation_order_witness :
    PrecedesIdx (isSetLabelsEv true) isPrecheckEv
      (runReview { maxFilesThreshold := 100, retryOnError := false }
        (mkSessionEnv (okAttemptEnv [] []) (okAttemptEnv [] []))).1
    ∧ ∃ a, (runReview { maxFilesThreshold := 100, retryOnError := false }
        (mkSessionEnv (okAttemptEnv [] []) (okAttemptEnv [] []))).1
        = a ++ [Ev.setLabels false] :=
  ⟨runReview_mutation_order.1 _ _ (by rfl),
   runReview_mutation_order.2.2.2 _ _
     { success := true, action := some OutcomeAction.reviewed,
       message := "Review complete: " ++ reviewActionText ReviewAction.approve,
       findingsCount := some 0 }
     (by rfl) (by rfl)⟩

/-- C6 counterexample: with one persisting-free new high finding and one
stale existing comment the attempt trace resolves the stale thread before
creating the new comment, so comment creation does not precede thread
resolution as the claim states. -/
theorem performReview_create_before_resolve_cex :
    ¬ PrecedesIdx isCreateEv isResolveEv
      (performReview { maxFilesThreshold := 100, retryOnError := false }
        (okAttemptEnv [mkFinding Severity.high "new1"] [mkComment 1 (some "old1")])).1 := by
  intro h
  have htr : (performReview { maxFilesThreshold := 100, retryOnError := false }
      (okAttemptEnv [mkFinding Severity.high "new1"] [mkComment 1 (some "old1")])).1
      = [Ev.cliCheck true, Ev.getChangedFiles, Ev.checkNonCode, Ev.cloneRepo, Ev.runEngine,
         Ev.getExisting, Ev.resolveThread 1, Ev.createComment "new1", Ev.dismissStale,
         Ev.submitRev ReviewAction.comment true, Ev.removeWorkdir] := by rfl
  rw [htr] at h
  exact absurd (h ⟨7, by decide⟩ ⟨6, by decide⟩ (by decide) (by decide)) (by decide)

/- ### C4: marker round trip -/

theorem beginsWith_append_self (p z : List Char) : beginsWith p (p ++ z) = true := by
  induction p with
  | nil => rfl
  | cons c cs ih => simp [beginsWith, ih]

theorem beginsWith_isPrefix (p cs : List Char) : beginsWith p cs = true ↔ p <+: cs := by
  induction p generalizing cs with
  | nil => simp [beginsWith]
  | cons x xs ih =>
    cases cs with
    | nil => simp [beginsWith]
    | cons c rest =>
      simp [beginsWith, List.cons_prefix_cons, ih, Bool.and_eq_true, beq_iff_eq]

theorem beginsWith_append_split (p q cs : List Char) (h : beginsWith (p ++ q) cs = true) :
    beginsWith p cs = true ∧ beginsWith q (cs.drop p.length) = true := by
  induction p generalizing cs with
  | nil => simpa [beginsWith] using h
  | cons x xs ih =>
    cases cs with
    | nil => simp [beginsWith] at h
    | cons c rest =>
      simp only [List.cons_append, beginsWith, Bool.and_eq_true] at h ⊢
      obtain ⟨hx, hr⟩ := h
      obtain ⟨h1, h2⟩ := ih rest hr
      exact ⟨⟨hx, h1⟩, by simpa using h2⟩

theorem matchMarkerAt_some_prefix (cs cap : List Char) (h : matchMarkerAt cs = some cap) :
    beginsWith markerStartSeq cs = true := by
  unfold matchMarkerAt at h
  split at h
  · rename_i hopen
    split at h
    · cases h
    · rename_i c rest hdrop
      split at h
      · rename_i hc
        have hpre : markerOpenSeq <+: cs := (beginsWith_isPrefix _ _).mp hopen
        obtain ⟨t, ht⟩ := hpre
        have hlen : markerOpenSeq.length = 16 := by decide
        have hdt : t = c :: rest := by
          have h2 : List.drop 16 (markerOpenSeq ++ t) = c :: rest := ht ▸ hdrop
          rwa [show (16 : Nat) = markerOpenSeq.length from hlen.symm,
            List.drop_left] at h2
        have hceq : c = lbrace := beq_iff_eq.mp hc
        rw [beginsWith_isPrefix]
        refine ⟨rest, ?_⟩
        rw [← ht, hdt, hceq]
        simp [markerStartSeq]
      · cases h
  · cases h

theorem border_no_overlap (q z : List Char) (hne : q ≠ [])
    (hnb : beginsWith markerStartSeq q = false) :
    beginsWith markerStartSeq (q ++ (markerStartSeq ++ z)) = false := by
  by_contra hcon
  rw [Bool.not_eq_false, beginsWith_isPrefix] at hcon
  have hmlen : markerStartSeq.length = 17 := by decide
  by_cases hk : 17 ≤ q.length
  · have hq : beginsWith markerStartSeq q = true := by
      rw [beginsWith_isPrefix]
      obtain ⟨t, ht⟩ := hcon
      have htake : markerStartSeq = q.take 17 := by
        have h1 : (q ++ (markerStartSeq ++ z)).take 17 = markerStartSeq := by
          rw [← ht]
          simp [hmlen]
        rw [← h1, List.take_append_of_le_length hk]
      exact htake ▸ List.take_prefix 17 q
    rw [hq] at hnb
    cases hnb
  · push_neg at hk
    have hpos : 0 < q.length := List.length_pos.mpr hne
    obtain ⟨t, ht⟩ := hcon
    have hl : (q ++ (markerStartSeq ++ z))[q.length]? = some '<' := by
      rw [List.getElem?_append_right (Nat.le_refl _), Nat.sub_self,
        List.getElem?_append, if_pos (by decide)]
      decide
    have hr : (markerStartSeq ++ t)[q.length]? = markerStartSeq[q.length]? := by
      rw [List.getElem?_append, if_pos (by omega)]
    rw [ht] at hr
    rw [hl] at hr
    have : markerStartSeq[q.length]? = some '<' := hr.symm
    interval_cases h : q.length <;> revert this <;> decide

theorem scanForMarker_skip (pre z : List Char)
    (h : containsSeq markerStartSeq pre = false) :
    scanForMarker (pre ++ (markerStartSeq ++ z)) = scanForMarker (markerStartSeq ++ z) := by
  induction pre with
  | nil => rfl
  | cons c rest ih =>
    simp only [containsSeq, Bool.or_eq_false_iff] at h
    obtain ⟨h1, h2⟩ := h
    have hmatch : matchMarkerAt ((c :: rest) ++ (markerStartSeq ++ z)) = none := by
      cases hm : matchMarkerAt ((c :: rest) ++ (markerStartSeq ++ z)) with
      | none => rfl
      | some cap =>
        have := matchMarkerAt_some_prefix _ _ hm
        rw [border_no_overlap (c :: rest) z (by simp) h1] at this
        cases this
    rw [List.cons_append, scanForMarker]
    rw [List.cons_append] at hmatch
    rw [hmatch]
    exact ih h2

theorem lazyCloseScan_run (content rest acc : List Char)
    (h : ∀ c ∈ content, (c == rbrace) = false ∧ (c == '\n') = false)
    (hr : beginsWith markerCloseSeq rest = true) :
    lazyCloseScan (content ++ rbrace :: rest) acc
      = some (acc.reverse ++ content ++ [rbrace]) := by
  induction content generalizing acc with
  | nil =>
    simp [lazyCloseScan, hr]
  | cons c cs ih =>
    obtain ⟨h1, h2⟩ := h c (by simp)
    rw [List.cons_append, lazyCloseScan]
    rw [h1, h2]
    simp only [Bool.false_and, if_false, ite_false]
    rw [ih (c :: acc) (fun x hx => h x (List.mem_cons_of_mem c hx))]
    simp

theorem parseJsonStringBody_simple (body rest acc : List Char)
    (h : ∀ c ∈ body, (c == '"') = false ∧ (c == '\\') = false ∧ 32 ≤ c.toNat) :
    parseJsonStringBody (body ++ '"' :: rest) acc
      = some (String.mk (acc.reverse ++ body), rest) := by
  induction body generalizing acc with
  | nil =>
    rw [List.nil_append, parseJsonStringBody.eq_def]
    simp
  | cons c cs ih =>
    obtain ⟨h1, h2, h3⟩ := h c (by simp)
    rw [List.cons_append, parseJsonStringBody.eq_def]
    simp only [h1, h2, if_false, ite_false]
    have h4 : ¬ (c.toNat < 32) := by omega
    rw [if_neg h4]
    rw [ih (c :: acc) (fun x hx => h x (List.mem_cons_of_mem c hx))]
    simp

theorem joinLines_cons2 (a b : String) (l : List String) :
    joinLines (a :: b :: l) = a ++ "\n" ++ joinLines (b :: l) := rfl

theorem joinLines_append2 (x : String) (xs : List String) (m ft : String) :
    joinLines ((x :: xs) ++ [m, ft])
      = joinLines (x :: xs) ++ "\n" ++ (m ++ "\n" ++ ft) := by
  induction xs generalizing x with
  | nil => simp [joinLines, String.append_assoc]
  | cons y ys ih =>
    have ih2 := ih y
    rw [List.cons_append] at ih2
    rw [List.cons_append, List.cons_append, joinLines_cons2, ih2, joinLines_cons2]
    simp [String.append_assoc]

theorem alnum_char_facts (c : Char) (h : isAsciiAlnumAny c = true) :
    (c == rbrace) = false ∧ (c == '\n') = false ∧ (c == '"') = false
      ∧ (c == '\\') = false ∧ 32 ≤ c.toNat := by
  simp only [isAsciiAlnumAny, Bool.or_eq_true, Bool.and_eq_true, decide_eq_true_eq] at h
  have hx : (97 ≤ c.toNat ∧ c.toNat ≤ 122) ∨ (65 ≤ c.toNat ∧ c.toNat ≤ 90)
      ∨ (48 ≤ c.toNat ∧ c.toNat ≤ 57) := by
    rcases h with (⟨h1, h2⟩ | ⟨h1, h2⟩) | ⟨h1, h2⟩
    · exact Or.inl ⟨char_le_iff_toNat.mp h1, char_le_iff_toNat.mp h2⟩
    · exact Or.inr (Or.inl ⟨char_le_iff_toNat.mp h1, char_le_iff_toNat.mp h2⟩)
    · exact Or.inr (Or.inr ⟨char_le_iff_toNat.mp h1, char_le_iff_toNat.mp h2⟩)
  have hne : ∀ (d : Char) (n : Nat), d.toNat = n → c.toNat ≠ n → (c == d) = false := by
    intro d n hd hcn
    rw [beq_eq_false_iff_ne]
    intro heq
    exact hcn (heq ▸ hd)
  exact ⟨hne rbrace 125 (toNat_ofNat_ascii (by omega)) (by omega),
    hne '\n' 10 rfl (by omega), hne '"' 34 rfl (by omega),
    hne '\\' 92 rfl (by omega), by omega⟩

theorem skipJsonWs_cons (c : Char) (l : List Char)
    (h : ((c == ' ') || (c == '\t') || (c == '\n') || (c == '\r')) = false) :
    skipJsonWs (c :: l) = c :: l := by
  simp only [skipJsonWs, List.dropWhile_cons, h]
  simp

theorem scanForMarker_cons_some (c : Char) (rest cap : List Char)
    (h : matchMarkerAt (c :: rest) = some cap) : scanForMarker (c :: rest) = some cap := by
  simp [scanForMarker, h]

theorem matchMarkerAt_start (w cap : List Char) (h : lazyCloseScan w [] = some cap) :
    matchMarkerAt (markerStartSeq ++ w) = some (lbrace :: cap) := by
  unfold matchMarkerAt
  rw [markerStartSeq, List.append_assoc, beginsWith_append_self]
  have hd : List.drop 16 (markerOpenSeq ++ lbrace :: w) = lbrace :: w := by
    rw [show markerOpenSeq ++ lbrace :: w = markerOpenSeq ++ ([lbrace] ++ w) from rfl,
      show (16 : Nat) = markerOpenSeq.length from by decide, List.drop_left]
    rfl
  simp only [List.singleton_append, if_true, hd]
  simp [h]

theorem parseJsonMembers_hash_tail (fuel : Nat) (vbody : List Char)
    (hv : ∀ c ∈ vbody, (c == '"') = false ∧ (c == '\\') = false ∧ 32 ≤ c.toNat) :
    parseJsonMembers (fuel + 1)
      ('"' :: 'h' :: 'a' :: 's' :: 'h' :: '"' :: ':' :: '"' :: (vbody ++ ['"', rbrace]))
      = some ([("hash", String.mk vbody)], []) := by
  have hval : parseJsonStringBody (vbody ++ ['"', rbrace]) []
      = some (String.mk vbody, [rbrace]) :=
    parseJsonStringBody_simple vbody [rbrace] [] hv
  have wq : ∀ l : List Char, skipJsonWs ('"' :: l) = '"' :: l :=
    fun l => skipJsonWs_cons _ _ (by decide)
  have wc : ∀ l : List Char, skipJsonWs (':' :: l) = ':' :: l :=
    fun l => skipJsonWs_cons _ _ (by decide)
  have wb : ∀ l : List Char, skipJsonWs (rbrace :: l) = rbrace :: l :=
    fun l => skipJsonWs_cons _ _ (by decide)
  have hkey : ∀ l : List Char,
      parseJsonStringBody ('h' :: 'a' :: 's' :: 'h' :: '"' :: l) [] = some ("hash", l) :=
    fun l => parseJsonStringBody_simple ['h', 'a', 's', 'h'] l [] (by decide)
  have b1 : (rbrace == ',') = false := by decide
  have b2 : (rbrace == rbrace) = true := by decide
  rw [parseJsonMembers.eq_def]
  simp only [wq, wc, wb, hkey, hval, b1, b2, beq_self_eq_true, if_true, if_false,
    ite_false, ite_true, Bool.false_eq_true]

theorem parseFlatJsonObject_hash (H : String)
    (h1 : ∀ c ∈ H.data, isAsciiAlnumAny c = true) :
    parseFlatJsonObject
      (lbrace :: '"' :: 'h' :: 'a' :: 's' :: 'h' :: '"' :: ':' :: '"'
        :: (H.data ++ ['"', rbrace]))
      = some [("hash", H)] := by
  have hfacts : ∀ c ∈ H.data, (c == '"') = false ∧ (c == '\\') = false ∧ 32 ≤ c.toNat :=
    fun c hc =>
      ⟨(alnum_char_facts c (h1 c hc)).2.2.1, (alnum_char_facts c (h1 c hc)).2.2.2.1,
        (alnum_char_facts c (h1 c hc)).2.2.2.2⟩
  have wl : ∀ l : List Char, skipJsonWs (lbrace :: l) = lbrace :: l :=
    fun l => skipJsonWs_cons _ _ (by decide)
  have wq : ∀ l : List Char, skipJsonWs ('"' :: l) = '"' :: l :=
    fun l => skipJsonWs_cons _ _ (by decide)
  have bq : ('"' == rbrace) = false := by decide
  have bl : (lbrace == lbrace) = true := by decide
  unfold parseFlatJsonObject
  rw [wl]
  simp only [bl, if_true, wq, bq, if_false, ite_false, ite_true, Bool.false_eq_true]
  rw [parseJsonMembers_hash_tail _ H.data hfacts]
  rfl

theorem extractMarkerHash_embed (pre suf : List Char) (H : String)
    (h1 : ∀ c ∈ H.data, isAsciiAlnumAny c = true)
    (h2 : containsSeq markerStartSeq pre = false) :
    extractMarkerHash (String.mk (pre ++ (markerStartSeq
      ++ (('"' :: 'h' :: 'a' :: 's' :: 'h' :: '"' :: ':' :: '"' :: (H.data ++ ['"']))
          ++ rbrace :: (markerCloseSeq ++ suf))))) = some H := by
  have hfl : ∀ c ∈ ('"' :: 'h' :: 'a' :: 's' :: 'h' :: '"' :: ':' :: '"'
      :: (H.data ++ ['"'])), (c == rbrace) = false ∧ (c == '\n') = false := by
    simp only [List.forall_mem_cons, List.forall_mem_append]
    refine ⟨by decide, by decide, by decide, by decide, by decide, by decide, by decide,
      by decide, ?_, by decide⟩
    intro c hc
    exact ⟨(alnum_char_facts c (h1 c hc)).1, (alnum_char_facts c (h1 c hc)).2.1⟩
  have hscan2 : lazyCloseScan
      (('"' :: 'h' :: 'a' :: 's' :: 'h' :: '"' :: ':' :: '"' :: (H.data ++ ['"']))
        ++ rbrace :: (markerCloseSeq ++ suf)) []
      = some (('"' :: 'h' :: 'a' :: 's' :: 'h' :: '"' :: ':' :: '"' :: (H.data ++ ['"']))
          ++ [rbrace]) := by
    have hr := lazyCloseScan_run
      ('"' :: 'h' :: 'a' :: 's' :: 'h' :: '"' :: ':' :: '"' :: (H.data ++ ['"']))
      (markerCloseSeq ++ suf) [] hfl (beginsWith_append_self _ _)
    simpa using hr
  have hmatch := matchMarkerAt_start _ _ hscan2
  unfold extractMarkerHash
  rw [show (String.mk (pre ++ (markerStartSeq
      ++ (('"' :: 'h' :: 'a' :: 's' :: 'h' :: '"' :: ':' :: '"' :: (H.data ++ ['"']))
          ++ rbrace :: (markerCloseSeq ++ suf))))).data
      = pre ++ (markerStartSeq
      ++ (('"' :: 'h' :: 'a' :: 's' :: 'h' :: '"' :: ':' :: '"' :: (H.data ++ ['"']))
          ++ rbrace :: (markerCloseSeq ++ suf))) from rfl]
  rw [scanForMarker_skip pre _ h2]
  rw [show markerStartSeq
      ++ (('"' :: 'h' :: 'a' :: 's' :: 'h' :: '"' :: ':' :: '"' :: (H.data ++ ['"']))
          ++ rbrace :: (markerCloseSeq ++ suf))
      = '<' :: (markerStartSeq.tail
        ++ (('"' :: 'h' :: 'a' :: 's' :: 'h' :: '"' :: ':' :: '"' :: (H.data ++ ['"']))
          ++ rbrace :: (markerCloseSeq ++ suf))) from rfl] at hmatch ⊢
  rw [scanForMarker_cons_some _ _ _ hmatch]
  rw [show lbrace :: (('"' :: 'h' :: 'a' :: 's' :: 'h' :: '"' :: ':' :: '"'
      :: (H.data ++ ['"'])) ++ [rbrace])
      = lbrace :: '"' :: 'h' :: 'a' :: 's' :: 'h' :: '"' :: ':' :: '"'
        :: ((H.data ++ ['"']) ++ [rbrace]) from rfl]
  rw [List.append_assoc H.data ['"'] [rbrace]]
  rw [show H.data ++ (['"'] ++ [rbrace]) = H.data ++ ['"', rbrace] from rfl]
  show (match parseFlatJsonObject (lbrace :: '"' :: 'h' :: 'a' :: 's' :: 'h' :: '"'
      :: ':' :: '"' :: (H.data ++ ['"', rbrace])) with
    | none => none
    | some kvs => jsonLookupLast "hash" kvs) = some H
  rw [parseFlatJsonObject_hash H h1]
  simp [jsonLookupLast]

/-- C4: round trip of the comment marker. For a finding whose hash is made
of ASCII alphanumerics (as every generateHash output is) and whose comment
text before the marker line does not itself contain the literal marker
opening `<!-- ai-review: \x7b`, scanning the built comment body with
`AI_REVIEW_METADATA_PATTERN` and JSON-parsing the capture group recovers
exactly the embedded hash. Without the no-early-marker hypothesis the
leftmost match lands on the earlier occurrence (see the counterexample),
so the claim's unconditional form fails. -/
theorem buildFindingComment_marker_roundtrip (f : Finding) (headCommit : String)
    (h1 : ∀ c ∈ f.hash.data, isAsciiAlnumAny c = true)
    (h2 : containsSeq markerStartSeq (bodyBeforeMarker f).data = false) :
    extractMarkerHash (buildFindingComment f headCommit) = some f.hash := by
  have m1 : markerStartSeq = ("<!-- ai-review: \x7b" : String).data := by decide
  have m2 : markerCloseSeq = (" -->" : String).data := rfl
  have r1 : ∀ l : List Char, rbrace :: l = ("\x7d" : String).data ++ l :=
    fun l => by rw [show ("\x7d" : String).data = [rbrace] from by decide]; rfl
  have hdata : (buildFindingComment f headCommit).data
      = (bodyBeforeMarker f).data ++ (markerStartSeq
        ++ (('"' :: 'h' :: 'a' :: 's' :: 'h' :: '"' :: ':' :: '"' :: (f.hash.data ++ ['"']))
            ++ rbrace :: (markerCloseSeq ++ ('\n' :: (footerLine headCommit).data)))) := by
    show (joinLines (findingCommentPreLines f
        ++ [markerLine f, footerLine headCommit])).data = _
    rw [show findingCommentPreLines f
        = headerLine f :: (findingCommentPreLines f).tail from rfl]
    rw [joinLines_append2]
    rw [show bodyBeforeMarker f
        = joinLines (headerLine f :: (findingCommentPreLines f).tail) ++ "\n" from rfl]
    rw [show markerLine f
        = "<!-- ai-review: \x7b\"hash\":\"" ++ f.hash ++ "\"\x7d -->" from rfl]
    simp only [String.data_append, m1, m2, r1]
    simp [List.append_assoc]
  have hem := extractMarkerHash_embed (bodyBeforeMarker f).data
    ('\n' :: (footerLine headCommit).data) f.hash h1 h2
  rw [show String.mk ((bodyBeforeMarker f).data ++ (markerStartSeq
      ++ (('"' :: 'h' :: 'a' :: 's' :: 'h' :: '"' :: ':' :: '"' :: (f.hash.data ++ ['"']))
          ++ rbrace :: (markerCloseSeq ++ ('\n' :: (footerLine headCommit).data)))))
      = String.mk (buildFindingComment f headCommit).data from by rw [hdata]] at hem
  exact hem

theorem buildFindingComment_marker_roundtrip_witness :
    extractMarkerHash (buildFindingComment (mkFinding Severity.high "a1b2c3d4") "abc1234def")
      = some (mkFinding Severity.high "a1b2c3d4").hash :=
  buildFindingComment_marker_roundtrip (mkFinding Severity.high "a1b2c3d4") "abc1234def"
    (by decide) (by decide)

/-- C4 counterexample: a finding whose description carries a forged
marker; the leftmost regex match picks the forged marker, so the
extractor returns the forged hash rather than the embedded one. -/
theorem buildFindingComment_marker_hijack_cex :
    extractMarkerHash (buildFindingComment hijackFinding "abc1234def") = some "evil"
    ∧ extractMarkerHash (buildFindingComment hijackFinding "abc1234def")
      ≠ some hijackFinding.hash := by
  exact ⟨by decide, by decide⟩

/- ### C7: engine output extraction -/

theorem findSeqIdx_some_begins (pat cs : List Char) (i : Nat)
    (h : findSeqIdx pat cs = some i) : beginsWith pat (cs.drop i) = true := by
  induction cs generalizing i with
  | nil =>
    rw [findSeqIdx] at h
    split at h
    · rename_i hb
      cases h
      simpa using hb
    · cases h
  | cons c rest ih =>
    rw [findSeqIdx] at h
    split at h
    · rename_i hb
      cases h
      simpa using hb
    · rename_i hb
      split at h
      · rename_i k hk
        cases h
        simpa using ih k hk
      · cases h

theorem findSeqIdx_some_first (pat cs : List Char) (i : Nat)
    (h : findSeqIdx pat cs = some i) :
    ∀ k, k < i → beginsWith pat (cs.drop k) = false := by
  induction cs generalizing i with
  | nil =>
    rw [findSeqIdx] at h
    split at h
    · cases h
      omega
    · cases h
  | cons c rest ih =>
    rw [findSeqIdx] at h
    split at h
    · cases h
      omega
    · rename_i hb
      split at h
      · rename_i k0 hk0
        cases h
        intro k hk
        cases k with
        | zero => simpa using Bool.not_eq_true _ |>.mp (by simpa using hb)
        | succ k' =>
          have := ih k0 hk0 k' (by omega)
          simpa using this
      · cases h

theorem findSeqIdx_complete (pat cs : List Char) (k : Nat)
    (h : beginsWith pat (cs.drop k) = true) :
    ∃ i, findSeqIdx pat cs = some i ∧ i ≤ k := by
  induction cs generalizing k with
  | nil =>
    refine ⟨0, ?_, Nat.zero_le k⟩
    rw [findSeqIdx]
    rw [List.drop_nil] at h
    simp [h]
  | cons c rest ih =>
    by_cases hb : beginsWith pat (c :: rest) = true
    · exact ⟨0, by rw [findSeqIdx]; simp [hb], Nat.zero_le k⟩
    · cases k with
      | zero =>
        rw [List.drop_zero] at h
        exact absurd h hb
      | succ k' =>
        rw [List.drop_succ_cons] at h
        obtain ⟨i, hi, hle⟩ := ih k' h
        refine ⟨i + 1, ?_, by omega⟩
        rw [findSeqIdx]
        rw [if_neg (by simp [hb]), hi]

theorem lastCharIdx_some_get (ch : Char) (cs : List Char) (e : Nat)
    (h : lastCharIdx ch cs = some e) : cs[e]? = some ch := by
  induction cs generalizing e with
  | nil => cases h
  | cons c rest ih =>
    rw [lastCharIdx] at h
    split at h
    · rename_i k hk
      cases h
      simpa using ih k hk
    · split at h
      · rename_i hc
        cases h
        simpa using beq_iff_eq.mp hc
      · cases h

theorem lastCharIdx_complete (ch : Char) (cs : List Char) (k : Nat)
    (h : cs[k]? = some ch) : ∃ e, lastCharIdx ch cs = some e ∧ k ≤ e := by
  induction cs generalizing k with
  | nil => simp at h
  | cons c rest ih =>
    rw [lastCharIdx]
    cases k with
    | zero =>
      simp at h
      cases hrest : lastCharIdx ch rest with
      | some i => exact ⟨i + 1, rfl, by omega⟩
      | none => exact ⟨0, by simp [h], Nat.le_refl 0⟩
    | succ k' =>
      simp only [List.getElem?_cons_succ] at h
      obtain ⟨e, he, hle⟩ := ih k' h
      rw [he]
      exact ⟨e + 1, rfl, by omega⟩

theorem lastCharIdx_some_last (ch : Char) (cs : List Char) (e : Nat)
    (h : lastCharIdx ch cs = some e) :
    ∀ k, e < k → cs[k]? ≠ some ch := by
  induction cs generalizing e with
  | nil => cases h
  | cons c rest ih =>
    rw [lastCharIdx] at h
    split at h
    · rename_i k0 hk0
      cases h
      intro k hk
      cases k with
      | zero => omega
      | succ k' =>
        have := ih k0 hk0 k' (by omega)
        simpa using this
    · rename_i hnone
      split at h
      · cases h
        intro k hk
        cases k with
        | zero => omega
        | succ k' =>
          intro hget
          obtain ⟨e2, he2, h3⟩ := lastCharIdx_complete ch rest k' (by simpa using hget)
          rw [hnone] at he2
          cases he2
      · cases h

theorem beginsWith_single (ch : Char) (l : List Char) :
    beginsWith [ch] l = true ↔ l[0]? = some ch := by
  cases l with
  | nil => simp [beginsWith]
  | cons c cs =>
    simp only [beginsWith, Bool.and_eq_true, beq_iff_eq, List.getElem?_cons_zero,
      Option.some.injEq]
    constructor
    · rintro ⟨h, _⟩
      exact h.symm
    · intro h
      exact ⟨h.symm, trivial⟩

theorem beginsWith_single_get (ch : Char) (cs : List Char) (k : Nat) :
    beginsWith [ch] (cs.drop k) = true ↔ cs[k]? = some ch := by
  rw [beginsWith_single, List.getElem?_drop, Nat.add_zero]

/-- C7: on a zero-exit engine run the output parser extracts the first
JSON-looking substring — starting at the first opening brace, ending at
the last closing brace, containing the literal `"status"` and, at least
eight characters later, the literal `"findings"` — tolerating prose
around it; when no such substring exists it fails with the
`Could not find JSON in Claude output` error, and when the substring
fails JSON parsing or schema validation it fails with a distinct
`Failed to parse review JSON` error instead of a coerced success. -/
theorem parseReviewOutput_spec :
    (∀ (validate : String → Except String ReviewResult) (output : String),
        jsonMatchModel output.data = none →
        parseReviewOutput validate output
          = { success := false, result := none, error := some noJsonFoundMsg,
              rawOutput := some output })
    ∧ (∀ (validate : String → Except String ReviewResult) (output : String)
          (m : List Char) (msg : String),
        jsonMatchModel output.data = some m →
        validate (String.mk m) = Except.error msg →
        parseReviewOutput validate output
          = { success := false, result := none,
              error := some ("Failed to parse review JSON: " ++ msg),
              rawOutput := some output })
    ∧ (∀ (validate : String → Except String ReviewResult) (output : String)
          (m : List Char) (r : ReviewResult),
        jsonMatchModel output.data = some m →
        validate (String.mk m) = Except.ok r →
        parseReviewOutput validate output
          = { success := true, result := some r, error := none,
              rawOutput := some output })
    ∧ (∀ (cs m : List Char), jsonMatchModel cs = some m →
        ∃ p e, p ≤ e ∧ e < cs.length
          ∧ m = (cs.drop p).take (e + 1 - p)
          ∧ cs[p]? = some lbrace ∧ (∀ k, k < p → cs[k]? ≠ some lbrace)
          ∧ cs[e]? = some rbrace ∧ (∀ k, e < k → cs[k]? ≠ some rbrace)
          ∧ ∃ i j, p < i ∧ beginsWith statusPat (cs.drop i) = true
              ∧ i + 8 ≤ j ∧ beginsWith findingsPat (cs.drop j) = true ∧ j + 10 ≤ e + 1)
    ∧ (∀ cs : List Char, jsonMatchModel cs = none →
        ∀ p i j e, chainAt cs p i j e = false) := by
  refine ⟨?_, ?_, ?_, ?_, ?_⟩
  · intro validate output h
    simp [parseReviewOutput, h]
  · intro validate output m msg h hv
    simp [parseReviewOutput, h, hv]
  · intro validate output m r h hv
    simp [parseReviewOutput, h, hv]
  · intro cs m hm
    unfold jsonMatchModel at hm
    split at hm
    · cases hm
    · rename_i p hp
      split at hm
      · cases hm
      · rename_i i0 hi0
        split at hm
        · cases hm
        · rename_i j0 hj0
          split at hm
          · cases hm
          · rename_i e he
            split at hm
            · rename_i hcond
              cases hm
              have hpb := (beginsWith_single_get lbrace cs p).mp
                (findSeqIdx_some_begins [lbrace] cs p hp)
              have hpf : ∀ k, k < p → cs[k]? ≠ some lbrace := by
                intro k hk hget
                have := findSeqIdx_some_first [lbrace] cs p hp k hk
                rw [(beginsWith_single_get lbrace cs k).mpr hget] at this
                cases this
              have heb := lastCharIdx_some_get rbrace cs e he
              have helast := lastCharIdx_some_last rbrace cs e he
              have helen : e < cs.length := (List.getElem?_eq_some_iff.mp heb).1
              have hsb := findSeqIdx_some_begins statusPat (cs.drop (p + 1)) i0 hi0
              rw [List.drop_drop] at hsb
              have hfb := findSeqIdx_some_begins findingsPat
                (cs.drop (p + 1 + i0 + 8)) j0 hj0
              rw [List.drop_drop] at hfb
              refine ⟨p, e, by omega, helen, rfl, hpb, hpf, heb, ?_, ?_⟩
              · intro k hk hget
                exact helast k hk hget
              · refine ⟨p + 1 + i0, p + 1 + i0 + 8 + j0, by omega, hsb, by omega,
                  hfb, by omega⟩
            · cases hm
  · intro cs hm p i j e
    by_contra hch
    rw [Bool.not_eq_false] at hch
    simp only [chainAt, Bool.and_eq_true, decide_eq_true_eq] at hch
    obtain ⟨⟨⟨⟨⟨⟨⟨hb0, hbs⟩, hbf⟩, hbe⟩, hpi⟩, hij⟩, hje⟩, hlen⟩ := hch
    obtain ⟨p1, hp1, hp1le⟩ := findSeqIdx_complete [lbrace] cs p hb0
    have hs2 : beginsWith statusPat ((cs.drop (p1 + 1)).drop (i - (p1 + 1))) = true := by
      rw [List.drop_drop, show p1 + 1 + (i - (p1 + 1)) = i from by omega]
      exact hbs
    obtain ⟨i0, hi0, hi0le⟩ := findSeqIdx_complete statusPat (cs.drop (p1 + 1)) _ hs2
    have hf2 : beginsWith findingsPat
        ((cs.drop (p1 + 1 + i0 + 8)).drop (j - (p1 + 1 + i0 + 8))) = true := by
      rw [List.drop_drop,
        show p1 + 1 + i0 + 8 + (j - (p1 + 1 + i0 + 8)) = j from by omega]
      exact hbf
    obtain ⟨j0, hj0, hj0le⟩ := findSeqIdx_complete findingsPat
      (cs.drop (p1 + 1 + i0 + 8)) _ hf2
    have hbe2 : cs[e]? = some rbrace := (beginsWith_single_get rbrace cs e).mp hbe
    obtain ⟨e1, he1, he1le⟩ := lastCharIdx_complete rbrace cs e hbe2
    simp only [jsonMatchModel, hp1, hi0, hj0, he1] at hm
    rw [if_pos (by omega)] at hm
    cases hm

theorem parseReviewOutput_spec_witness :
    parseReviewOutput (fun _ => Except.ok (mkResult ReviewStatus.completed []))
        "note \x7b\"status\":1,\"findings\":2\x7d end"
      = { success := true, result := some (mkResult ReviewStatus.completed []),
          error := none,
          rawOutput := some "note \x7b\"status\":1,\"findings\":2\x7d end" }
    ∧ parseReviewOutput (fun _ => Except.ok (mkResult ReviewStatus.completed [])) "hello"
      = { success := false, result := none, error := some noJsonFoundMsg,
          rawOutput := some "hello" } :=
  ⟨parseReviewOutput_spec.2.2.1 (fun _ => Except.ok (mkResult ReviewStatus.completed []))
      "note \x7b\"status\":1,\"findings\":2\x7d end"
      ("\x7b\"status\":1,\"findings\":2\x7d" : String).data
      (mkResult ReviewStatus.completed []) (by decide) (by rfl),
   parseReviewOutput_spec.1 (fun _ => Except.ok (mkResult ReviewStatus.completed []))
      "hello" (by decide)⟩

/- ### C8: webhook trigger filter -/

/-- C8: the pull-request trigger filter dispatches exactly when the pull
request is open and not a draft, and either the action is
`review_requested` with a Bot-typed requested reviewer or the action is
`ready_for_review`; every other payload is ignored. -/
theorem shouldTriggerReview_iff (payload : PullRequestPayload) :
    shouldTriggerReview payload = true
      ↔ payload.pull_request.state = "open" ∧ payload.pull_request.draft = false
        ∧ ((payload.action = "review_requested"
              ∧ ∃ r, payload.requested_reviewer = some r ∧ r.type = "Bot")
            ∨ payload.action = "ready_for_review") := by
  obtain ⟨action, number, pr, rr⟩ := payload
  obtain ⟨state, draft⟩ := pr
  simp only [shouldTriggerReview]
  by_cases ha1 : action = "review_requested" <;>
    by_cases ha2 : action = "ready_for_review" <;>
      by_cases hs : state = "open" <;>
        cases draft <;>
          rcases rr with _ | r <;>
            simp [ha1, ha2, hs, List.contains]

theorem shouldTriggerReview_iff_witness :
    shouldTriggerReview
      (⟨"ready_for_review", 1, ⟨"open", false⟩, none⟩ : PullRequestPayload) = true :=
  (shouldTriggerReview_iff
      (⟨"ready_for_review", 1, ⟨"open", false⟩, none⟩ : PullRequestPayload)).mpr
    ⟨rfl, rfl, Or.inr rfl⟩

/- ### C10: webhook signature check -/

/-- C10: `verifySignature` is total — a Boolean for every input. It
returns true exactly when the signature header equals the expected
`sha256=<hex>` string, and when the byte lengths differ (the case in
which `timingSafeEqual` throws and the catch returns false) it returns
false. -/
theorem verifySignature_spec :
    (∀ (hmacSha256Hex : String → String → String) (payload signature secret : String),
        verifySignature hmacSha256Hex payload signature secret = true
          ↔ signature = "sha256=" ++ hmacSha256Hex secret payload)
    ∧ (∀ (hmacSha256Hex : String → String → String) (payload signature secret : String),
        signature.utf8ByteSize
            ≠ ("sha256=" ++ hmacSha256Hex secret payload).utf8ByteSize →
        verifySignature hmacSha256Hex payload signature secret = false) := by
  constructor
  · intro hmacSha256Hex payload signature secret
    simp only [verifySignature, bne_iff_ne, ne_eq, ite_not]
    split
    · rename_i heq
      simp [beq_iff_eq]
    · rename_i hne
      simp only [Bool.false_eq_true, false_iff]
      intro hcon
      exact hne (congrArg String.utf8ByteSize hcon)
  · intro hmacSha256Hex payload signature secret h
    simp only [verifySignature, bne_iff_ne, ne_eq, ite_not]
    split
    · rename_i heq
      exact absurd heq h
    · rfl

theorem verifySignature_spec_witness :
    ("x" : String).utf8ByteSize
        ≠ ("sha256=" ++ (fun _ _ => "abc" : String → String → String) "s" "p").utf8ByteSize
    ∧ verifySignature (fun _ _ => "abc") "p" "x" "s" = false :=
  ⟨by decide, verifySignature_spec.2 (fun _ _ => "abc") "p" "x" "s" (by decide)⟩
